import Mathlib

/-!
Verification of the fides trust protocol core against its specification.

The definitions below are a shallow embedding of the TypeScript sources:

* packages/shared/src/constants.ts                 (protocol constants)
* services/trust-graph/src/services/graph.ts       (BFS trust-path search)
* services/trust-graph/src/services/edge-utils.ts  (edge filtering, indexes)
* services/trust-graph/src/services/scoring.ts     (optimized reputation)
* services/trust-graph/src/types.ts                (naive reputation)
* services/trust-graph/src/services/trust-service.ts (create-trust flow)
* packages/sdk/src/signing/canonicalize.ts         (RFC 9421 base string)
* packages/sdk/src/signing/http-signature.ts       (request signing)
* packages/sdk/src/signing/verify.ts               (request verification)
* packages/sdk/src/signing/nonce-store.ts          (replay store)
* packages/sdk/src/trust/attestation.ts            (attestations)
* packages/sdk/src/identity/did.ts                 (identifier checks)

JavaScript numbers are modelled as rationals, Date values as integer
timestamps passed explicitly, and byte buffers as lists of Fin 256.
Platform primitives that are not part of the repository (Ed25519 from
the noble library, SHA-256, base64 and hex codecs from node, the WHATWG
URL parser, JSON) are modelled by executable stand-ins marked in their
doc comments; only properties the repository code relies on
(determinism, round-tripping, signature correctness) are used.
-/

/-! ## Constants (packages/shared/src/constants.ts) -/

/-- DEFAULT_TRUST_DECAY constant. -/
def DEFAULT_TRUST_DECAY : ℚ := 0.85

/-- MAX_TRUST_DEPTH constant. -/
def MAX_TRUST_DEPTH : ℕ := 6

/-- ALGORITHM constant. -/
def ALGORITHM : String := "ed25519"

/-- DEFAULT_SIGNATURE_EXPIRY_SECONDS constant. -/
def DEFAULT_SIGNATURE_EXPIRY_SECONDS : ℤ := 300

/-- DEFAULT_CLOCK_DRIFT_SECONDS constant. -/
def DEFAULT_CLOCK_DRIFT_SECONDS : ℤ := 30

/-- ED25519_PUBLIC_KEY_LENGTH constant. -/
def ED25519_PUBLIC_KEY_LENGTH : ℕ := 32

/-- MIN_TRUST_LEVEL constant. -/
def MIN_TRUST_LEVEL : ℚ := 0

/-- MAX_TRUST_LEVEL constant. -/
def MAX_TRUST_LEVEL : ℚ := 100

/-! ## Trust graph data model -/

/-- GraphEdge from services/trust-graph/src/services/graph.ts.  Date
fields are integer timestamps; null is modelled by none. -/
structure GraphEdge where
  sourceDid : String
  targetDid : String
  trustLevel : ℚ
  revokedAt : Option ℤ
  expiresAt : Option ℤ
deriving Repr, DecidableEq

/-- TrustPathNode from services/trust-graph/src/types.ts. -/
structure TrustPathNode where
  did : String
  trustLevel : ℚ
deriving Repr, DecidableEq

/-- TrustPathResult from services/trust-graph/src/types.ts.  The field
named from in the source is spelled from2 here, and to is spelled to2,
because both are reserved words in Lean. -/
structure TrustPathResult where
  from2 : String
  to2 : String
  found : Bool
  path : List TrustPathNode
  cumulativeTrust : ℚ
  hops : ℕ
deriving Repr, DecidableEq

/-- The predicate of the edge filter shared by filterValidEdges
(edge-utils.ts) and the inline filters in graph.ts and types.ts:
drop an edge when revokedAt is set (a Date object is always truthy in
JavaScript) or when expiresAt is set and strictly before the current
time. -/
def edgeIsValid (timestamp : ℤ) (edge : GraphEdge) : Bool :=
  if edge.revokedAt.isSome then false
  else match edge.expiresAt with
    | some expiresAt => if expiresAt < timestamp then false else true
    | none => true

/-- filterValidEdges from services/trust-graph/src/services/edge-utils.ts.
The source defaults the now argument to new Date(); here the current
time is passed explicitly. -/
def filterValidEdges (edges : List GraphEdge) (timestamp : ℤ) : List GraphEdge :=
  edges.filter (edgeIsValid timestamp)

/-! ### JavaScript Map model

The index builders use a JavaScript Map from string keys to arrays,
relying on the pattern: if the key is absent create an empty array at
the end of the map, then push the value onto the keyed array.  A Map
is modelled as an insertion-ordered association list. -/

/-- One mapPush step: append v to the array stored under k, creating
the entry at the end when k is absent. -/
def mapPush {α : Type} : List (String × List α) → String → α → List (String × List α)
  | [], k, v => [(k, [v])]
  | (k0, l0) :: rest, k, v =>
    if k0 == k then (k0, l0 ++ [v]) :: rest
    else (k0, l0) :: mapPush rest k v

/-- Model of index.get(k) || [] on the Map model. -/
def mapGetD {α : Type} (m : List (String × List α)) (k : String) : List α :=
  match m.find? (fun p => p.1 == k) with
  | some p => p.2
  | none => []

/-- Entries of the forward adjacency index, target plus trust level. -/
structure FwdEntry where
  target : String
  trust : ℚ
deriving Repr, DecidableEq

/-- Entries of the reverse adjacency index, source plus trust level. -/
structure RevEntry where
  sourceDid : String
  trustLevel : ℚ
deriving Repr, DecidableEq

/-- buildForwardIndex from edge-utils.ts (the same loop appears inline
in the naive findTrustPath in graph.ts): one pass over the valid edges
pushing (target, trust) under the source key. -/
def buildForwardIndex (validEdges : List GraphEdge) : List (String × List FwdEntry) :=
  validEdges.foldl
    (fun index edge => mapPush index edge.sourceDid ⟨edge.targetDid, edge.trustLevel⟩) []

/-- buildReverseIndex from edge-utils.ts: one pass pushing
(sourceDid, trustLevel) under the target key. -/
def buildReverseIndex (validEdges : List GraphEdge) : List (String × List RevEntry) :=
  validEdges.foldl
    (fun index edge => mapPush index edge.targetDid ⟨edge.sourceDid, edge.trustLevel⟩) []

/-! ### BFS path search (naive variant of graph.ts) -/

/-- QueueItem of the naive findTrustPath in graph.ts. -/
structure QueueItem where
  did : String
  path : List TrustPathNode
  cumulativeTrust : ℚ
  depth : ℕ
deriving Repr, DecidableEq

/-- The queue item enqueued for a fresh neighbor: the extended path
and the cumulative trust decayed by trust/100 times decay to the
current depth. -/
def pathNewItem (current : QueueItem) (neighbor : FwdEntry) : QueueItem :=
  { did := neighbor.target
    path := current.path ++ [⟨neighbor.target, neighbor.trust⟩]
    cumulativeTrust :=
      current.cumulativeTrust *
        ((neighbor.trust / 100) * DEFAULT_TRUST_DECAY ^ current.depth)
    depth := current.depth + 1 }

/-- Body of the neighbor loop of findTrustPath: skip a neighbor whose
target was already visited, otherwise mark it visited and enqueue it.
The accumulator carries the queue behind the dequeued element and the
visited list. -/
def pathNeighborStep (current : QueueItem) (acc : List QueueItem × List String)
    (neighbor : FwdEntry) : List QueueItem × List String :=
  if acc.2.contains neighbor.target then acc
  else (acc.1 ++ [pathNewItem current neighbor], acc.2 ++ [neighbor.target])

/-- The while loop of findTrustPath (graph.ts).  The JavaScript loop
terminates because every enqueued vertex is fresh in the visited set;
the embedding makes that explicit with a fuel argument, returning none
only when the fuel runs out (which findTrustPathLoop_isSome below shows
never happens for the fuel supplied by findTrustPath). -/
def findTrustPathLoop (adjacency : List (String × List FwdEntry))
    (fromDid toDid : String) (maxDepth : ℕ) :
    ℕ → List QueueItem → List String → Option TrustPathResult
  | 0, _, _ => none
  | _ + 1, [], _ =>
    some { from2 := fromDid, to2 := toDid, found := false, path := []
           cumulativeTrust := 0, hops := 0 }
  | fuel + 1, current :: queue, visited =>
    if current.did == toDid then
      some { from2 := fromDid, to2 := toDid, found := true, path := current.path
             cumulativeTrust := current.cumulativeTrust, hops := current.depth }
    else if maxDepth ≤ current.depth then
      findTrustPathLoop adjacency fromDid toDid maxDepth fuel queue visited
    else
      let step := (mapGetD adjacency current.did).foldl (pathNeighborStep current)
        (queue, visited)
      findTrustPathLoop adjacency fromDid toDid maxDepth fuel step.1 step.2

/-- findTrustPath from services/trust-graph/src/services/graph.ts (the
queue.shift variant; the optimized variant differs only in dequeue and
path bookkeeping).  The source takes the current time from new Date();
here it is the explicit argument now.  The fuel edges.length + 2 is an
upper bound on the number of loop iterations, proved sufficient below. -/
def findTrustPath (edges : List GraphEdge) (fromDid toDid : String)
    (maxDepth : ℕ) (now : ℤ) : TrustPathResult :=
  let validEdges := edges.filter (edgeIsValid now)
  let adjacency := buildForwardIndex validEdges
  (findTrustPathLoop adjacency fromDid toDid maxDepth (edges.length + 2)
      [{ did := fromDid, path := [⟨fromDid, 100⟩], cumulativeTrust := 1, depth := 0 }]
      [fromDid]).getD
    { from2 := fromDid, to2 := toDid, found := false, path := []
      cumulativeTrust := 0, hops := 0 }

/-! ### Reputation scoring (types.ts naive and scoring.ts optimized) -/

/-- QueueItem of computeReputationScore. -/
structure RepQueueItem where
  did : String
  depth : ℕ
  pathTrust : ℚ
deriving Repr, DecidableEq

/-- Mutable state of the reputation BFS: the queue, the visited set,
the transitiveTrusters set and the transitiveScore accumulator. -/
structure RepAcc where
  queue : List RepQueueItem
  visited : List String
  trans : List String
  score : ℚ
deriving Repr, DecidableEq

/-- Body of the incoming-edge loop shared verbatim by both
computeReputationScore variants: skip an already-visited source,
otherwise mark it visited, record it as a transitive truster,
accumulate the decayed path trust and enqueue it. -/
def repNeighborStep (current : RepQueueItem) (acc : RepAcc) (edge : RevEntry) : RepAcc :=
  if acc.visited.contains edge.sourceDid then acc
  else
    let pathTrust :=
      current.pathTrust * (edge.trustLevel / 100) * DEFAULT_TRUST_DECAY ^ current.depth
    { queue := acc.queue ++ [⟨edge.sourceDid, current.depth + 1, pathTrust⟩]
      visited := acc.visited ++ [edge.sourceDid]
      trans := acc.trans ++ [edge.sourceDid]
      score := acc.score + pathTrust }

/-- The transitive-trust while loop shared by the two
computeReputationScore variants, parameterized by the incoming-edge
lookup: the naive variant filters the valid-edge array on each step
and the optimized variant reads the reverse index.  Fuel as in
findTrustPathLoop. -/
def repLoop (incoming : String → List RevEntry) :
    ℕ → List RepQueueItem → List String → List String → ℚ →
    Option (List String × ℚ)
  | 0, _, _, _, _ => none
  | _ + 1, [], _, transList, score => some (transList, score)
  | fuel + 1, current :: queue, visited, transList, score =>
    if 3 ≤ current.depth then repLoop incoming fuel queue visited transList score
    else
      let acc := (incoming current.did).foldl (repNeighborStep current)
        ⟨queue, visited, transList, score⟩
      repLoop incoming fuel acc.queue acc.visited acc.trans acc.score

/-- Insertion-order deduplication, the observable content of a
JavaScript Set built by inserting the elements of a list in order. -/
def jsSetOfList (l : List String) : List String :=
  l.foldl (fun acc s => if acc.contains s then acc else acc ++ [s]) []

/-- Result record of computeReputationScore. -/
structure ReputationResult where
  score : ℚ
  directTrusters : ℕ
  transitiveTrusters : ℕ
deriving Repr, DecidableEq

/-- Shared tail of both computeReputationScore variants: average the
direct trust levels, run the transitive BFS from the direct trusters,
and combine 70 percent direct with 30 percent capped transitive. -/
def reputationFrom (incoming : String → List RevEntry) (did : String)
    (directPairs : List RevEntry) (fuel : ℕ) : ReputationResult :=
  let directTrusters := jsSetOfList (directPairs.map (·.sourceDid))
  let directScore : ℚ :=
    if 0 < directPairs.length then
      ((directPairs.map (·.trustLevel)).sum / directPairs.length) / 100
    else 0
  let start : List RepQueueItem := directTrusters.map (fun t => ⟨t, 1, 1⟩)
  let res := (repLoop incoming fuel start (jsSetOfList (did :: directTrusters)) [] 0).getD ([], 0)
  let combinedScore := directScore * 0.7 + min res.2 1 * 0.3
  { score := min combinedScore 1
    directTrusters := directTrusters.length
    transitiveTrusters := res.1.length }

/-- computeReputationScore from services/trust-graph/src/types.ts: the
naive variant, with array-filter incoming-edge lookup (the source also
builds a forward adjacency map that it never reads; it is omitted here
because it contributes nothing to the result). -/
def computeReputationScoreNaive (edges : List GraphEdge) (did : String) (now : ℤ) :
    ReputationResult :=
  let validEdges := edges.filter (edgeIsValid now)
  reputationFrom
    (fun d => (validEdges.filter (fun e => e.targetDid == d)).map
      (fun e => ⟨e.sourceDid, e.trustLevel⟩))
    did
    ((validEdges.filter (fun e => e.targetDid == did)).map
      (fun e => ⟨e.sourceDid, e.trustLevel⟩))
    (2 * edges.length + 1)

/-- computeReputationScore from
services/trust-graph/src/services/scoring.ts: the optimized variant,
reading the reverse index built by buildReverseIndex. -/
def computeReputationScoreOpt (edges : List GraphEdge) (did : String) (now : ℤ) :
    ReputationResult :=
  let validEdges := filterValidEdges edges now
  let reverseIndex := buildReverseIndex validEdges
  reputationFrom (fun d => mapGetD reverseIndex d) did (mapGetD reverseIndex did)
    (2 * edges.length + 1)

/-! ## Bytes and platform codec models -/

/-- A byte. -/
abbrev Byte := Fin 256

/-- Truncate a natural number to a byte. -/
def byteOf (n : ℕ) : Byte := ⟨n % 256, Nat.mod_lt _ (by decide)⟩

/-- Model of the UTF-8 encoding used by TextEncoder: one byte per
character, truncated; only determinism and injectivity on the ASCII
subset actually exercised matter to the verified code. -/
def strBytes (s : String) : List Byte := s.toList.map (fun c => byteOf c.toNat)

/-- Model of SHA-256 from node:crypto: an executable deterministic
digest stand-in; the verified code relies only on determinism. -/
def sha256Model (s : String) : List Byte := strBytes s

/-- Hexadecimal digit character for a value below 16. -/
def hexDigitChar (d : ℕ) : Char := if d < 10 then Char.ofNat (48 + d) else Char.ofNat (87 + d)

/-- Hex rendering of a byte list. -/
def hexChars : List Byte → List Char
  | [] => []
  | b :: rest => hexDigitChar (b.val / 16) :: hexDigitChar (b.val % 16) :: hexChars rest

/-- Model of Buffer.toString with hex encoding. -/
def bytesToHex (bs : List Byte) : String := ⟨hexChars bs⟩

/-- Value of one hex digit character. -/
def hexCharVal (c : Char) : Option (Fin 16) :=
  if h : 48 ≤ c.toNat ∧ c.toNat ≤ 57 then some ⟨c.toNat - 48, by omega⟩
  else if h2 : 97 ≤ c.toNat ∧ c.toNat ≤ 102 then some ⟨c.toNat - 87, by omega⟩
  else none

/-- Model of Buffer.from with hex encoding: consume hex digit pairs,
stopping at the first invalid pair the way node truncates. -/
def hexToBytes : List Char → List Byte
  | c1 :: c2 :: rest =>
    match hexCharVal c1, hexCharVal c2 with
    | some h, some l =>
      (⟨h.val * 16 + l.val, by have := h.isLt; have := l.isLt; omega⟩ : Byte) :: hexToBytes rest
    | _, _ => []
  | _ => []

/-- Model of the base64 codec used for signatures and digests.  Only
injectivity, round-tripping and the absence of the colon delimiter in
the output alphabet are relied on, so the hex codec serves as the
stand-in. -/
def bufferToBase64 (bs : List Byte) : String := bytesToHex bs

/-- Model of Buffer.from with base64 encoding, inverse of
bufferToBase64. -/
def bufferFromBase64 (s : String) : List Byte := hexToBytes s.data

/-- ASCII uppercase of one character, the model of the relevant part
of toUpperCase. -/
def asciiUpperChar (c : Char) : Char :=
  if 'a' ≤ c ∧ c ≤ 'z' then Char.ofNat (c.toNat - 32) else c

/-- ASCII uppercase of a string (all strings the canonicalizer
uppercases are ASCII method names). -/
def asciiUpper (s : String) : String := ⟨s.data.map asciiUpperChar⟩

/-- ASCII lowercase of one character. -/
def asciiLowerChar (c : Char) : Char :=
  if 'A' ≤ c ∧ c ≤ 'Z' then Char.ofNat (c.toNat + 32) else c

/-- ASCII lowercase of a string, the model of toLowerCase on header
names. -/
def asciiLower (s : String) : String := ⟨s.data.map asciiLowerChar⟩

/-- startsWith on the character lists. -/
def strStarts (s pre : String) : Bool := pre.data.isPrefixOf s.data

/-! ## Idealized Ed25519 (noble library model)

The repository signs and verifies with the noble Ed25519 library,
which is not part of the source tree.  It is modelled as a perfectly
correct deterministic signature scheme: a signature is the public key
followed by a 32-byte digest of the message, giving the 64-byte
signatures the code expects.  The verified claims rely only on
sign/verify correctness, not on unforgeability. -/

/-- Public key of a secret key in the model scheme; always 32 bytes. -/
def pubOf (sk : List Byte) : List Byte := (sk ++ List.replicate 32 (0 : Byte)).take 32

/-- A 32-byte message digest for the model scheme. -/
def digest32 (s : String) : List Byte := (sha256Model s ++ List.replicate 32 (0 : Byte)).take 32

/-- Model of ed25519 signing: 64 deterministic bytes. -/
def ed25519Sign (msg : String) (sk : List Byte) : List Byte := pubOf sk ++ digest32 msg

/-- Model of ed25519 verification. -/
def ed25519Verify (msg : String) (sig pk : List Byte) : Bool := sig == pk ++ digest32 msg

/-! ## Decimal rendering and parsing -/

/-- Digits of a natural number, most significant first, with explicit
fuel so the definition is structural and kernel-evaluable. -/
def natToCharsGo : ℕ → ℕ → List Char → List Char
  | 0, n, acc => Char.ofNat (48 + n % 10) :: acc
  | fuel + 1, n, acc =>
    if n < 10 then Char.ofNat (48 + n) :: acc
    else natToCharsGo fuel (n / 10) (Char.ofNat (48 + n % 10) :: acc)

/-- Decimal digits of a natural number. -/
def natToChars (n : ℕ) : List Char := natToCharsGo n n []

/-- Decimal rendering of an integer, the model of JavaScript template
interpolation of a number known to be integral. -/
def intToString (i : ℤ) : String :=
  if i < 0 then "-" ++ ⟨natToChars (-i).toNat⟩ else ⟨natToChars i.toNat⟩

/-- Value of a run of decimal digit characters (the model of parseInt
on the digit run a regex captured). -/
def digitsToNat (ds : List Char) : ℕ := ds.foldl (fun a c => a * 10 + (c.toNat - 48)) 0

/-! ## String scanners (models of the verifier regexes) -/

/-- Split a character list at the first occurrence of a character. -/
def splitAtChar (c : Char) : List Char → Option (List Char × List Char)
  | [] => none
  | x :: rest =>
    if x = c then some ([], rest)
    else (splitAtChar c rest).map (fun p => (x :: p.1, p.2))

/-- Leftmost match of the regex pattern open-paren, one or more
non-close-paren characters, close-paren: returns the capture and the
suffix after the closing parenthesis. -/
def findParen : List Char → Option (List Char × List Char)
  | [] => none
  | '(' :: rest =>
    match splitAtChar ')' rest with
    | some (cap, suffix) => if cap ≠ [] then some (cap, suffix) else findParen rest
    | none => none
  | c :: rest =>
    match c with
    | _ => findParen rest

/-- Leftmost match of a literal followed by one or more decimal digits:
the model of regexes of the shape created=(digits). -/
def scanLitDigits (lit : List Char) : List Char → Option ℕ
  | [] => none
  | c :: rest =>
    if lit.isPrefixOf (c :: rest) then
      let ds := ((c :: rest).drop lit.length).takeWhile Char.isDigit
      if ds ≠ [] then some (digitsToNat ds) else scanLitDigits lit rest
    else scanLitDigits lit rest

/-- Leftmost match of a literal followed by one or more non-quote
characters and a closing double quote, returning the capture: the
model of regexes of the shape keyid="([^"]+)". -/
def scanLitQuoted (lit : List Char) : List Char → Option (List Char)
  | [] => none
  | c :: rest =>
    if lit.isPrefixOf (c :: rest) then
      match splitAtChar '"' ((c :: rest).drop lit.length) with
      | some (cap, _) => if cap ≠ [] then some cap else scanLitQuoted lit rest
      | none => scanLitQuoted lit rest
    else scanLitQuoted lit rest

/-- Leftmost match of a literal followed by one or more non-colon
characters and a closing colon, returning the capture: the model of
the dynamically built regex label=:([^:]+): and of the Content-Digest
regex, with the literal part taken verbatim. -/
def scanLitColon (lit : List Char) : List Char → Option (List Char)
  | [] => none
  | c :: rest =>
    if lit.isPrefixOf (c :: rest) then
      match splitAtChar ':' ((c :: rest).drop lit.length) with
      | some (cap, _) => if cap ≠ [] then some cap else scanLitColon lit rest
      | none => scanLitColon lit rest
    else scanLitColon lit rest

/-! ## URL model -/

/-- The pieces of a parsed URL the canonicalizer reads. -/
structure UrlParts where
  host : String
  pathname : String
  search : String
deriving Repr, DecidableEq

/-- Split at the first occurrence of a separator sublist. -/
def subSplit (sep : List Char) : List Char → Option (List Char × List Char)
  | [] => none
  | c :: rest =>
    if sep.isPrefixOf (c :: rest) then some ([], (c :: rest).drop sep.length)
    else (subSplit sep rest).map (fun p => (c :: p.1, p.2))

/-- Modelled from the spec: the WHATWG URL parser used by new URL in
the canonicalizer.  A scheme, the separator, a non-empty host (with
port if present), then path and query; only determinism between the
signing and verifying sides matters to the verified code. -/
def urlParse (s : String) : Option UrlParts :=
  match subSplit "://".data s.data with
  | none => none
  | some (scheme, rest) =>
    if scheme = [] then none
    else
      let host := rest.takeWhile (fun c => c != '/' && c != '?')
      let tail := rest.drop host.length
      if host = [] then none
      else
        let pathRaw := tail.takeWhile (fun c => c != '?')
        let search := tail.drop pathRaw.length
        some ⟨⟨host⟩, if pathRaw = [] then "/" else ⟨pathRaw⟩, ⟨search⟩⟩

/-! ## RFC 9421 canonicalizer (packages/sdk/src/signing/canonicalize.ts) -/

/-- RequestLike: method, url, headers (an insertion-ordered string
record) and optional string body. -/
structure RequestLike where
  method : String
  url : String
  headers : List (String × String)
  body : Option String
deriving Repr, DecidableEq

/-- Insertion-ordered record lookup by exact key, the model of
JavaScript property access on a headers object and of Map.get. -/
def assocGet {α : Type} (m : List (String × α)) (key : String) : Option α :=
  (m.find? (fun p => p.1 == key)).map (·.2)

/-- Insertion-ordered record update: replace the value in place when
the exact key exists, append otherwise; the model of property
assignment, object spread update and Map.set. -/
def assocSet {α : Type} : List (String × α) → String → α → List (String × α)
  | [], k, v => [(k, v)]
  | (k0, v0) :: rest, k, v =>
    if k0 == k then (k0, v) :: rest else (k0, v0) :: assocSet rest k v

/-- SignatureParams from canonicalize.ts.  The TypeScript interface
has no nonce field; the signer nevertheless stores one (JavaScript
records are open) and the verifier reads params.nonce, so the runtime
record is modelled with an optional nonce, which parseSignatureInput
never sets, mirroring the source. -/
structure SignatureParams where
  components : List String
  created : ℤ
  expires : ℤ
  keyid : String
  alg : String
  nonce : Option String
deriving Repr, DecidableEq

/-- extractComponent from canonicalize.ts: derived components are
computed from the parsed URL (new URL throws on an unparsable URL,
for every derived component), header components are looked up
case-insensitively in entry order; a missing header is an error. -/
def extractComponent (request : RequestLike) (componentName : String) : Except String String :=
  if strStarts componentName "@" then
    match urlParse request.url with
    | none => .error "Invalid URL"
    | some url =>
      if componentName = "@method" then .ok (asciiUpper request.method)
      else if componentName = "@target-uri" then .ok request.url
      else if componentName = "@authority" then .ok url.host
      else if componentName = "@path" then .ok (url.pathname ++ url.search)
      else .error ("Unknown derived component: " ++ componentName)
  else
    let normalizedName := asciiLower componentName
    match request.headers.find? (fun p => asciiLower p.1 == normalizedName) with
    | some p => .ok p.2
    | none => .error ("Header not found: " ++ componentName)

/-- createSignatureBase from canonicalize.ts: one quoted line per
component followed by the @signature-params line.  As in the source,
the nonce is not part of the params line. -/
def createSignatureBase (request : RequestLike) (params : SignatureParams) :
    Except String String := do
  let lines ← params.components.mapM (fun componentName => do
    let value ← extractComponent request componentName
    pure ("\"" ++ componentName ++ "\": " ++ value))
  let componentList := String.intercalate " " (params.components.map (fun c => "\"" ++ c ++ "\""))
  let paramsLine := "\"@signature-params\": (" ++ componentList ++ ");created=" ++
    intToString params.created ++ ";expires=" ++ intToString params.expires ++
    ";keyid=\"" ++ params.keyid ++ "\";alg=\"" ++ params.alg ++ "\""
  pure (String.intercalate "\n" (lines ++ [paramsLine]))

/-- Tokens of the component list capture: split on whitespace, strip
all double quotes, drop empties (split, map replace, filter in the
source). -/
def parseComponentsList (cap : List Char) : List String :=
  (((cap.splitOnP (fun c => c.isWhitespace)).map
      (fun t => t.filter (fun c => c != '"'))).filter
    (fun t => !t.isEmpty)).map (fun t => (⟨t⟩ : String))

/-- Result of parseSignatureInput. -/
structure ParsedSignatureInput where
  label : String
  params : SignatureParams
deriving Repr, DecidableEq

/-- parseSignatureInput from canonicalize.ts: label up to the first
equals sign, parenthesized component list, then independent regex
scans for created, expires, keyid and alg over the remaining
parameter string.  No nonce is extracted, exactly as in the source. -/
def parseSignatureInput (signatureInput : String) : Except String ParsedSignatureInput :=
  match splitAtChar '=' signatureInput.data with
  | none => .error "Invalid Signature-Input format: missing ="
  | some (labelChars, rest) =>
    match findParen rest with
    | none => .error "Invalid Signature-Input format: missing component list"
    | some (componentsStr, paramsStr) =>
      let components := parseComponentsList componentsStr
      match scanLitDigits "created=".data paramsStr with
      | none => .error "Invalid Signature-Input format: missing created"
      | some created =>
        match scanLitDigits "expires=".data paramsStr with
        | none => .error "Invalid Signature-Input format: missing expires"
        | some expires =>
          match scanLitQuoted "keyid=\"".data paramsStr with
          | none => .error "Invalid Signature-Input format: missing keyid"
          | some keyid =>
            match scanLitQuoted "alg=\"".data paramsStr with
            | none => .error "Invalid Signature-Input format: missing alg"
            | some alg =>
              .ok ⟨⟨labelChars⟩,
                   ⟨components, (created : ℤ), (expires : ℤ), ⟨keyid⟩, ⟨alg⟩, none⟩⟩

/-! ## Signer (packages/sdk/src/signing/http-signature.ts, nonce variant) -/

/-- CONTENT_DIGEST_ALGORITHM constant. -/
def CONTENT_DIGEST_ALGORITHM : String := "sha-256"

/-- SignOptions from http-signature.ts. -/
structure SignOptions where
  keyid : Option String
  components : Option (List String)
  expirySeconds : Option ℤ
  label : Option String
deriving Repr, DecidableEq

/-- Empty sign options. -/
def SignOptions.none : SignOptions := ⟨Option.none, Option.none, Option.none, Option.none⟩

/-- signRequest from http-signature.ts (the variant that generates a
nonce and a Content-Digest).  Date.now()/1000 and crypto.randomUUID()
are passed explicitly as now and nonce.  When the request has a truthy
body the digest header is attached and content-digest joins the signed
components; the signature base is built, signed and emitted as the
Signature-Input and Signature headers. -/
def signRequest (request : RequestLike) (privateKey : List Byte)
    (options : SignOptions) (now : ℤ) (nonce : String) : Except String RequestLike :=
  let keyid := options.keyid.getD "unknown"
  let components := options.components.getD ["@method", "@target-uri", "@authority", "content-type"]
  let expirySeconds := options.expirySeconds.getD DEFAULT_SIGNATURE_EXPIRY_SECONDS
  let label := options.label.getD "sig1"
  let bodyTruthy := match request.body with
    | some b => !(b = "")
    | none => false
  let updatedHeaders :=
    if bodyTruthy then
      let hash := bufferToBase64 (sha256Model (request.body.getD ""))
      assocSet request.headers "Content-Digest" (CONTENT_DIGEST_ALGORITHM ++ "=:" ++ hash ++ ":")
    else request.headers
  let signedComponents :=
    if bodyTruthy then
      if components.contains "content-digest" then components
      else components ++ ["content-digest"]
    else components
  let updatedRequest := { request with headers := updatedHeaders }
  let created := now
  let expires := created + expirySeconds
  let params : SignatureParams :=
    ⟨signedComponents, created, expires, keyid, ALGORITHM, some nonce⟩
  match createSignatureBase updatedRequest params with
  | .error e => .error e
  | .ok signatureBase =>
    let signatureBytes := ed25519Sign signatureBase privateKey
    let signatureB64 := bufferToBase64 signatureBytes
    let componentList :=
      String.intercalate " " (signedComponents.map (fun c => "\"" ++ c ++ "\""))
    let signatureInput := label ++ "=(" ++ componentList ++ ");created=" ++
      intToString created ++ ";expires=" ++ intToString expires ++
      ";nonce=\"" ++ nonce ++ "\";keyid=\"" ++ keyid ++ "\";alg=\"" ++ ALGORITHM ++ "\""
    let signatureVal := label ++ "=:" ++ signatureB64 ++ ":"
    .ok { request with
          headers := assocSet (assocSet updatedHeaders "Signature-Input" signatureInput)
            "Signature" signatureVal }

/-! ## Nonce store (packages/sdk/src/signing/nonce-store.ts) -/

/-- The observable state of a NonceStore: the list of seen nonces (the
insertion timestamps only drive the background eviction timer, which
is outside the verified window). -/
def nonceStoreCheck (seen : List String) (nonce : String) : Bool × List String :=
  if seen.contains nonce then (false, seen) else (true, seen ++ [nonce])

/-- The characters the ECMAScript regular-expression grammar reserves:
a label containing one of them does not read as its own literal inside
a dynamically built pattern. -/
def regexReservedChars : List Char :=
  ['\\', '^', '$', '.', '|', '?', '*', '+', '(', ')', '[', ']', '\x7b', '\x7d']

/-- A character the pattern grammar treats as a literal. -/
def regexLiteralChar (c : Char) : Bool := !(regexReservedChars.contains c)

/-- Modelled from the spec: the verifier extracts the signature bytes
with the dynamically built regular expression
new RegExp(label ++ "=:([^:]+):") over the Signature header.  For a
label whose characters are all pattern literals the expression denotes
exactly the verbatim label, then =:, a non-colon capture and a
closing colon, which scanLitColon implements.  A label containing a
reserved character makes the constructor throw (an unmatched
parenthesis or bracket, caught by the verifier and turned into a
rejection) or denote some other pattern that does not match the
header the signer built (an anchor or a quantifier); the model fails
the scan for every such label, under-approximating the exceptional
ones whose altered pattern still happens to match, and the statements
proved about successful verification restrict themselves to labels
made of pattern literals, where the model is exact. -/
def labelSignatureScan (label : String) (s : List Char) : Option (List Char) :=
  if label.data.all regexLiteralChar then scanLitColon (label ++ "=:").data s
  else Option.none

/-! ## Verifier (packages/sdk/src/signing/verify.ts) -/

/-- VerifyResult from verify.ts. -/
structure VerifyResult where
  valid : Bool
  keyId : Option String
  error : Option String
deriving Repr, DecidableEq

/-- VerifyOptions from verify.ts; the nonce store is carried as its
seen-list state. -/
structure VerifyOptions where
  nonceStore : Option (List String)
  clockDriftSeconds : Option ℤ
deriving Repr, DecidableEq

/-- Empty verify options. -/
def VerifyOptions.none : VerifyOptions := ⟨Option.none, Option.none⟩

/-- Truthiness of an optional string under JavaScript coercion: absent
or empty is falsy. -/
def jsFalsy (o : Option String) : Bool :=
  match o with
  | Option.none => true
  | some s => s = ""

/-- The JavaScript expression a || b for optional strings: the first
operand unless it is falsy. -/
def jsStringOr (a b : Option String) : Option String :=
  match a with
  | some s => if s = "" then b else some s
  | Option.none => b

/-- verifyRequest from packages/sdk/src/signing/verify.ts, the
verifier exported by the SDK index: checks the key length, extracts
the two signature headers, parses Signature-Input, enforces the
ed25519 algorithm, checks expiry against the clock drift, runs the
optional nonce replay check, extracts the signature bytes, rebuilds
the signature base (exceptions from canonicalization surface as error
results, as with the try/catch boundary in the source), verifies the
signature, and finally compares the Content-Digest when a digest
header and a truthy body are present.  The current time and the nonce
store state are explicit; the updated store is returned alongside the
result. -/
def verifyRequest (request : RequestLike) (publicKey : List Byte)
    (options : VerifyOptions) (now : ℤ) : VerifyResult × Option (List String) :=
  if publicKey.length ≠ ED25519_PUBLIC_KEY_LENGTH then
    (⟨false, Option.none, some "Invalid public key length"⟩, options.nonceStore)
  else
    let signatureInput :=
      jsStringOr (assocGet request.headers "Signature-Input")
        (assocGet request.headers "signature-input")
    let signatureHeader :=
      jsStringOr (assocGet request.headers "Signature")
        (assocGet request.headers "signature")
    if jsFalsy signatureInput || jsFalsy signatureHeader then
      (⟨false, Option.none, some "Missing Signature or Signature-Input headers"⟩,
       options.nonceStore)
    else
      match parseSignatureInput (signatureInput.getD "") with
      | .error e => (⟨false, Option.none, some e⟩, options.nonceStore)
      | .ok parsed =>
        if parsed.params.alg ≠ ALGORITHM then
          (⟨false, some parsed.params.keyid,
            some ("Unsupported algorithm: " ++ parsed.params.alg ++
              ". Only ed25519 is supported.")⟩, options.nonceStore)
        else
          let clockDrift := options.clockDriftSeconds.getD DEFAULT_CLOCK_DRIFT_SECONDS
          if parsed.params.expires + clockDrift < now then
            (⟨false, some parsed.params.keyid,
              some ("Signature expired at " ++ intToString parsed.params.expires ++
                ", current time is " ++ intToString now)⟩, options.nonceStore)
          else
            let replayChecked : Bool × Option (List String) :=
              match options.nonceStore, parsed.params.nonce with
              | some store, some nonce =>
                let res := nonceStoreCheck store nonce
                (res.1, some res.2)
              | some store, Option.none => (true, some store)
              | Option.none, _ => (true, Option.none)
            if !replayChecked.1 then
              (⟨false, some parsed.params.keyid,
                some "Replay detected: nonce already used"⟩, replayChecked.2)
            else
              let store := replayChecked.2
              match labelSignatureScan parsed.label (signatureHeader.getD "").data with
              | Option.none =>
                (⟨false, some parsed.params.keyid,
                  some "Invalid Signature header format"⟩, store)
              | some signatureB64 =>
                let signatureBytes := bufferFromBase64 ⟨signatureB64⟩
                match createSignatureBase request parsed.params with
                | .error e => (⟨false, Option.none, some e⟩, store)
                | .ok signatureBase =>
                  if !ed25519Verify signatureBase signatureBytes publicKey then
                    (⟨false, some parsed.params.keyid,
                      some "Signature verification failed"⟩, store)
                  else
                    let contentDigest :=
                      jsStringOr (assocGet request.headers "Content-Digest")
                        (assocGet request.headers "content-digest")
                    if !(jsFalsy contentDigest) && !(jsFalsy request.body) then
                      match scanLitColon (CONTENT_DIGEST_ALGORITHM ++ "=:").data
                          (contentDigest.getD "").data with
                      | Option.none =>
                        (⟨false, some parsed.params.keyid,
                          some "Invalid Content-Digest header format"⟩, store)
                      | some expectedHash =>
                        let actualHash := bufferToBase64 (sha256Model (request.body.getD ""))
                        if actualHash ≠ (⟨expectedHash⟩ : String) then
                          (⟨false, some parsed.params.keyid,
                            some "Content-Digest mismatch: body has been tampered with"⟩,
                           store)
                        else (⟨true, some parsed.params.keyid, Option.none⟩, store)
                    else (⟨true, some parsed.params.keyid, Option.none⟩, store)

/-! ## Identifiers (packages/sdk/src/identity/did.ts) -/

/-- DID_PREFIX constant from the shared package. -/
def DID_PREFIX : String := "did:fides:"

/-- The Bitcoin base58 alphabet used by the bs58 dependency. -/
def BASE58_ALPHABET : List Char :=
  "123456789ABCDEFGHJKLMNPQRSTUVWXYZabcdefghijkmnopqrstuvwxyz".data

/-- Index of a character in the base58 alphabet. -/
def base58CharVal (c : Char) : Option ℕ := BASE58_ALPHABET.indexOf? c

/-- Big-endian base-256 digits of a natural number with explicit fuel,
empty for zero, matching bs58 decoding of the numeric part. -/
def natToBytesGo : ℕ → ℕ → List Byte → List Byte
  | 0, n, acc => if n = 0 then acc else byteOf n :: acc
  | fuel + 1, n, acc => if n = 0 then acc else natToBytesGo fuel (n / 256) (byteOf (n % 256) :: acc)

/-- Big-endian bytes of a natural number (empty for zero). -/
def natToBytes (n : ℕ) : List Byte := natToBytesGo n n []

/-- Model of bs58.decode: leading alphabet zeros become leading zero
bytes, the rest is the base-58 value in base-256; any character
outside the alphabet fails. -/
def base58Decode (s : String) : Option (List Byte) :=
  match s.data.mapM base58CharVal with
  | Option.none => Option.none
  | some values =>
    let n := values.foldl (fun acc v => acc * 58 + v) 0
    let leadingOnes := (s.data.takeWhile (fun c => c = '1')).length
    some (List.replicate leadingOnes (0 : Byte) ++ natToBytes n)

/-- isValidDID from did.ts: the prefix, a non-empty suffix, base58
decoding success and a 32-byte decoded key. -/
def isValidDID (did : String) : Bool :=
  if !strStarts did DID_PREFIX then false
  else
    let encoded : String := ⟨did.data.drop DID_PREFIX.data.length⟩
    if encoded.length = 0 then false
    else match base58Decode encoded with
      | some decoded => decoded.length == ED25519_PUBLIC_KEY_LENGTH
      | Option.none => false

/-! ## Attestations (packages/sdk/src/trust/attestation.ts) -/

/-- TrustAttestation from the shared package. -/
structure TrustAttestation where
  id : String
  issuerDid : String
  subjectDid : String
  trustLevel : ℚ
  issuedAt : String
  signature : String
  payload : String
deriving Repr, DecidableEq

/-- AttestationPayload from attestation.ts. -/
structure AttestationPayload where
  id : String
  issuerDid : String
  subjectDid : String
  trustLevel : ℚ
  issuedAt : String
deriving Repr, DecidableEq

/-- Rendering of a JSON number known to be integral (the only values
the attestation flow serializes). -/
def jsonNumber (q : ℚ) : String := intToString q.num

/-- Model of JSON.stringify on the canonical attestation payload
record, valid for field strings free of characters JSON would escape;
the theorems restrict themselves to such strings. -/
def attPayloadString (p : AttestationPayload) : String :=
  "\x7b\"id\":\"" ++ p.id ++ "\",\"issuerDid\":\"" ++ p.issuerDid ++
  "\",\"subjectDid\":\"" ++ p.subjectDid ++ "\",\"trustLevel\":" ++
  jsonNumber p.trustLevel ++ ",\"issuedAt\":\"" ++ p.issuedAt ++ "\"\x7d"

/-- Consume an expected literal. -/
def expectLit (lit : List Char) (cs : List Char) : Option (List Char) :=
  if lit.isPrefixOf cs then some (cs.drop lit.length) else Option.none

/-- Read a JSON integer (optional minus sign, one or more digits). -/
def readJsonInt (cs : List Char) : Option (ℤ × List Char) :=
  if cs.head? = some '-' then
    let rest := cs.tail
    let ds := rest.takeWhile Char.isDigit
    if ds.isEmpty then Option.none
    else some (-(digitsToNat ds : ℤ), rest.drop ds.length)
  else
    let ds := cs.takeWhile Char.isDigit
    if ds.isEmpty then Option.none
    else some ((digitsToNat ds : ℤ), cs.drop ds.length)

/-- Modelled from the spec: JSON.parse restricted to the canonical
attestation payload shape of section 6, the exact inverse of
attPayloadString on escape-free field strings.  JSON.parse itself is a
platform primitive outside the source tree. -/
def parseAttPayload (s : String) : Option AttestationPayload := do
  let r ← expectLit "\x7b\"id\":\"".data s.data
  let (idv, r) ← splitAtChar '"' r
  let r ← expectLit ",\"issuerDid\":\"".data r
  let (iss, r) ← splitAtChar '"' r
  let r ← expectLit ",\"subjectDid\":\"".data r
  let (sub, r) ← splitAtChar '"' r
  let r ← expectLit ",\"trustLevel\":".data r
  let (lvl, r) ← readJsonInt r
  let r ← expectLit ",\"issuedAt\":\"".data r
  let (iat, r) ← splitAtChar '"' r
  if r = ['}'] then
    some ⟨⟨idv⟩, ⟨iss⟩, ⟨sub⟩, (lvl : ℚ), ⟨iat⟩⟩
  else Option.none

/-- createAttestation from attestation.ts: validate both identifiers
and the integer trust level, build the canonical payload, sign its
bytes and attach the hex signature.  The fresh UUID and the issuance
time are explicit arguments. -/
def createAttestation (issuerDid subjectDid : String) (level : ℚ)
    (privateKey : List Byte) (newId : String) (issuedAt : String) :
    Except String TrustAttestation :=
  if !isValidDID issuerDid then .error "Invalid issuer DID format"
  else if !isValidDID subjectDid then .error "Invalid subject DID format"
  else if level.den ≠ 1 ∨ level < MIN_TRUST_LEVEL ∨ MAX_TRUST_LEVEL < level then
    .error "Trust level must be an integer between 0 and 100"
  else
    let payload : AttestationPayload := ⟨newId, issuerDid, subjectDid, level, issuedAt⟩
    let payloadString := attPayloadString payload
    let signature := ed25519Sign payloadString privateKey
    .ok ⟨newId, issuerDid, subjectDid, level, issuedAt, bytesToHex signature, payloadString⟩

/-- timingSafeStringEqual from attestation.ts: a length check followed
by crypto.timingSafeEqual on the UTF-8 buffers, which decides exactly
string equality. -/
def timingSafeStringEqual (a b : String) : Bool :=
  if a.length ≠ b.length then false else a == b

/-- verifyAttestation from attestation.ts: verify the signature over
the exact payload bytes, then require every envelope field to equal
its counterpart parsed from the payload; any failure, including a
payload JSON.parse exception, yields false. -/
def verifyAttestation (attestation : TrustAttestation) (publicKey : List Byte) : Bool :=
  let signatureBytes := hexToBytes attestation.signature.data
  if !ed25519Verify attestation.payload signatureBytes publicKey then false
  else match parseAttPayload attestation.payload with
    | Option.none => false
    | some parsed =>
      if !timingSafeStringEqual parsed.id attestation.id then false
      else if !timingSafeStringEqual parsed.issuerDid attestation.issuerDid then false
      else if !timingSafeStringEqual parsed.subjectDid attestation.subjectDid then false
      else if parsed.trustLevel ≠ attestation.trustLevel then false
      else if !timingSafeStringEqual parsed.issuedAt attestation.issuedAt then false
      else true

/-- A single-field mutation of the attestation envelope. -/
inductive EnvTamper where
  | id (v : String)
  | issuerDid (v : String)
  | subjectDid (v : String)
  | trustLevel (v : ℚ)
  | issuedAt (v : String)
deriving Repr, DecidableEq

/-- Apply an envelope mutation, leaving payload and signature alone. -/
def applyTamper (a : TrustAttestation) : EnvTamper → TrustAttestation
  | .id v => { a with id := v }
  | .issuerDid v => { a with issuerDid := v }
  | .subjectDid v => { a with subjectDid := v }
  | .trustLevel v => { a with trustLevel := v }
  | .issuedAt v => { a with issuedAt := v }

/-- The mutation actually changes the field it touches. -/
def tamperChanges (a : TrustAttestation) : EnvTamper → Prop
  | .id v => v ≠ a.id
  | .issuerDid v => v ≠ a.issuerDid
  | .subjectDid v => v ≠ a.subjectDid
  | .trustLevel v => v ≠ a.trustLevel
  | .issuedAt v => v ≠ a.issuedAt

/-! ## Trust service (services/trust-graph/src/services/trust-service.ts) -/

/-- IDENTITY_CACHE_TTL_MS constant. -/
def IDENTITY_CACHE_TTL_MS : ℤ := 30 * 60 * 1000

/-- identities row, the fields the create-trust flow reads and writes.
The metadata blob and firstSeen are never consulted by the verified
operations and are omitted. -/
structure IdentityRow where
  did : String
  publicKey : List Byte
  lastSeen : ℤ
deriving Repr, DecidableEq

/-- trust_edges row.  The stored attestation json blob and createdAt
default are write-only for the verified operations and are omitted;
the UNIQUE(source_did, target_did) constraint of the schema is
enforced by dbInsertTrustEdge. -/
structure TrustEdgeRow where
  id : String
  sourceDid : String
  targetDid : String
  trustLevel : ℚ
  signature : List Byte
  expiresAt : Option ℤ
deriving Repr, DecidableEq

/-- reputation_scores row. -/
structure ReputationScoreRow where
  did : String
  score : ℚ
  directTrusters : ℕ
  transitiveTrusters : ℕ
  lastComputed : ℤ
deriving Repr, DecidableEq

/-- The trust-graph database state. -/
structure Db where
  identities : List IdentityRow
  trustEdges : List TrustEdgeRow
  reputationScores : List ReputationScoreRow
deriving Repr, DecidableEq

/-- CreateTrustRequest from types.ts; the optional expiresAt string is
modelled as the timestamp it parses to. -/
structure CreateTrustRequest where
  issuerDid : String
  subjectDid : String
  trustLevel : ℚ
  signature : String
  payload : String
  expiresAt : Option ℤ
deriving Repr, DecidableEq

/-- Model of the plain drizzle insert into trust_edges: the schema
declares UNIQUE(source_did, target_did), so the insert fails on a
duplicate directed pair and appends the row otherwise.  The source
calls .values(...) with no conflict clause. -/
def dbInsertTrustEdge (db : Db) (row : TrustEdgeRow) : Except String Db :=
  if db.trustEdges.any
      (fun e => e.sourceDid == row.sourceDid && e.targetDid == row.targetDid) then
    .error "duplicate key value violates unique constraint unique_source_target"
  else .ok { db with trustEdges := db.trustEdges ++ [row] }

/-- Mutable state of a TrustService instance plus its database: the
in-memory identity cache (did to cachedAt), the circuit breaker
counters, and the database. -/
structure TrustServiceState where
  identityCache : List (String × ℤ)
  failureCount : ℕ
  openUntil : ℤ
  db : Db
deriving Repr, DecidableEq

/-- The in-memory identity cache check opening ensureIdentity in
trust-service.ts: a cached entry within its TTL short-circuits the
lookup. -/
def identityCacheFresh (cache : List (String × ℤ)) (now : ℤ) (did : String) : Bool :=
  match cache.find? (fun p => p.1 == did) with
  | some cached => decide (now - cached.2 < IDENTITY_CACHE_TTL_MS)
  | Option.none => false

/-- ensureIdentity from trust-service.ts: serve from the in-memory
cache within its TTL; otherwise look the identity up in the database,
update lastSeen and cache it; otherwise fetch it from the discovery
service (modelled by the resolve oracle, guarded by the circuit
breaker), insert it and cache it; reject when it cannot be found.  The
circuit-breaker bookkeeping on a failed fetch is instance state that
the verified properties never observe, so a failed resolution simply
surfaces the identity-not-found error. -/
def ensureIdentity (st : TrustServiceState) (resolve : String → Option (List Byte))
    (now : ℤ) (did : String) : Except String TrustServiceState :=
  if identityCacheFresh st.identityCache now did then Except.ok st
  else
    match st.db.identities.find? (fun r => r.did == did) with
    | some _ =>
      let ids2 := st.db.identities.map
        (fun r => if r.did == did then { r with lastSeen := now } else r)
      let db2 : Db := { st.db with identities := ids2 }
      .ok { st with db := db2, identityCache := assocSet st.identityCache did now }
    | Option.none =>
      if now < st.openUntil then
        .error ("Identity not found: " ++ did ++ ". Discovery service circuit breaker open.")
      else
        match resolve did with
        | some publicKey =>
          let db2 : Db := { st.db with identities := st.db.identities ++ [⟨did, publicKey, now⟩] }
          .ok ⟨assocSet st.identityCache did now, 0, st.openUntil, db2⟩
        | Option.none =>
          .error ("Identity not found: " ++ did ++ ". Register with discovery service first.")

/-- createTrust from trust-service.ts: syntactic validation, identity
materialization for both endpoints, signature verification of the
payload bytes under the issuer key, semantic binding of the payload to
the request fields, insert of the edge row, and invalidation of the
subject reputation cache by resetting lastComputed to epoch zero.  The
current time, the issuedAt rendering, the database-generated edge id
and the discovery resolver are explicit. -/
def createTrust (st : TrustServiceState) (resolve : String → Option (List Byte))
    (now : ℤ) (newEdgeId : String) (request : CreateTrustRequest) :
    Except String (String × TrustServiceState) :=
  if request.trustLevel.den ≠ 1 ∨ request.trustLevel < MIN_TRUST_LEVEL ∨
      MAX_TRUST_LEVEL < request.trustLevel then
    .error "Trust level must be an integer between 0 and 100"
  else if request.issuerDid = "" then .error "Invalid issuer DID"
  else if request.subjectDid = "" then .error "Invalid subject DID"
  else if request.signature = "" then .error "Invalid signature"
  else if request.payload = "" then .error "Payload is required for signature verification"
  else
    match ensureIdentity st resolve now request.issuerDid with
    | .error e => .error e
    | .ok st1 =>
      match ensureIdentity st1 resolve now request.subjectDid with
      | .error e => .error e
      | .ok st2 =>
        match st2.db.identities.find? (fun r => r.did == request.issuerDid) with
        | Option.none => .error "Cannot verify signature: issuer identity not found"
        | some issuerIdentity =>
          if issuerIdentity.publicKey.length = 0 then
            .error "Cannot verify signature: issuer has no public key"
          else
            let signatureBytes := hexToBytes request.signature.data
            if signatureBytes.length ≠ 64 then
              .error "Invalid signature: must be 64 bytes (Ed25519)"
            else if !ed25519Verify request.payload signatureBytes issuerIdentity.publicKey then
              .error "Invalid signature: attestation signature verification failed"
            else
              match parseAttPayload request.payload with
              | Option.none => .error "Invalid payload: must be valid JSON"
              | some parsedPayload =>
                if parsedPayload.issuerDid ≠ request.issuerDid then
                  .error "Invalid attestation: issuerDid mismatch"
                else if parsedPayload.subjectDid ≠ request.subjectDid then
                  .error "Invalid attestation: subjectDid mismatch"
                else if parsedPayload.trustLevel ≠ request.trustLevel then
                  .error "Invalid attestation: trustLevel mismatch"
                else
                  let row : TrustEdgeRow :=
                    ⟨newEdgeId, request.issuerDid, request.subjectDid, request.trustLevel,
                     hexToBytes request.signature.data, request.expiresAt⟩
                  match dbInsertTrustEdge st2.db row with
                  | .error e => .error e
                  | .ok db2 =>
                    let scores2 := db2.reputationScores.map
                      (fun r => if r.did == request.subjectDid then
                        { r with lastComputed := 0 } else r)
                    .ok (newEdgeId, { st2 with db := { db2 with reputationScores := scores2 } })

/-! ## Verification helper definitions -/

/-- The cumulative-trust product along a path suffix starting at BFS
depth d: each node contributes its raw level divided by 100 times the
decay raised to the depth of the step that reached it.  Applied to the
tail of a returned path at depth 0, this is the product over d from 0
to hops - 1 of (w(d+1) / 100) * decay ^ d in the words of the
specification. -/
def pathCumFrom : List TrustPathNode → ℕ → ℚ
  | [], _ => 1
  | n :: rest, d => (n.trustLevel / 100) * DEFAULT_TRUST_DECAY ^ d * pathCumFrom rest (d + 1)

/-- Invariant of a BFS queue item: a non-empty path whose cumulative
trust is the decay product of its tail, whose length is depth plus
one, whose vertices are pairwise distinct, and whose depth respects
the bound. -/
def QItemInv (maxDepth : ℕ) (it : QueueItem) : Prop :=
  it.path ≠ [] ∧
  it.cumulativeTrust = pathCumFrom it.path.tail 0 ∧
  it.depth + 1 = it.path.length ∧
  (it.path.map TrustPathNode.did).Nodup ∧
  it.depth ≤ maxDepth

/-- All path vertices of an item lie in the visited set. -/
def QItemIn (visited : List String) (it : QueueItem) : Prop :=
  ∀ x ∈ it.path.map TrustPathNode.did, x ∈ visited

/-- Loop invariant of the path BFS: the visited list is duplicate-free
and confined to the vertex universe, and every queued item satisfies
the item invariant with its path inside the visited set. -/
def PLoopInv (univ : List String) (maxDepth : ℕ)
    (queue : List QueueItem) (visited : List String) : Prop :=
  visited.Nodup ∧ (∀ x ∈ visited, x ∈ univ) ∧
  ∀ it ∈ queue, QItemInv maxDepth it ∧ QItemIn visited it

/-- Facts established about the output of the neighbor fold of the
path BFS, relative to the queue and visited list it started from. -/
def PFoldOut (univ : List String) (maxDepth : ℕ) (q : List QueueItem)
    (v : List String) (out : List QueueItem × List String) : Prop :=
  out.2.Nodup ∧ (∀ x ∈ out.2, x ∈ univ) ∧
  out.1.length + v.length = q.length + out.2.length ∧
  (∀ x ∈ v, x ∈ out.2) ∧
  ∀ it ∈ out.1, QItemInv maxDepth it ∧ QItemIn out.2 it

/-- Facts established about the output of the incoming-edge fold of
the reputation BFS. -/
def RFoldOut (univ : List String) (q : List RepQueueItem) (v : List String)
    (out : RepAcc) : Prop :=
  out.visited.Nodup ∧ (∀ x ∈ out.visited, x ∈ univ) ∧
  out.queue.length + v.length = q.length + out.visited.length

/-- Reference decimal rendering used in proofs about natToChars: the
most-significant-first digits of a natural number, defined by
well-founded recursion (never evaluated by the kernel; natToCharsGo is
proved equal to it). -/
def natRep (n : ℕ) : List Char :=
  if n < 10 then [Char.ofNat (48 + n)]
  else natRep (n / 10) ++ [Char.ofNat (48 + n % 10)]
termination_by n
decreasing_by omega

/-- A string JSON.stringify would emit verbatim: free of double
quotes and backslashes (the characters that would trigger escaping in
the payload fields the system produces). -/
def jsonSafe (s : String) : Prop := '"' ∉ s.data ∧ '\\' ∉ s.data


/-- The parameter suffix of a generated Signature-Input header, after
the component list's closing parenthesis: created and expires digit
runs, then the quoted nonce, keyid and alg parameters. -/
def paramsChars (C E N K : List Char) : List Char :=
  ';' :: 'c' :: 'r' :: 'e' :: 'a' :: 't' :: 'e' :: 'd' :: '=' ::
  (C ++ ';' :: 'e' :: 'x' :: 'p' :: 'i' :: 'r' :: 'e' :: 's' :: '=' ::
  (E ++ ';' :: 'n' :: 'o' :: 'n' :: 'c' :: 'e' :: '=' :: '"' ::
  (N ++ '"' :: ';' :: 'k' :: 'e' :: 'y' :: 'i' :: 'd' :: '=' :: '"' ::
  (K ++ '"' :: ';' :: 'a' :: 'l' :: 'g' :: '=' :: '"' ::
   'e' :: 'd' :: '2' :: '5' :: '5' :: '1' :: '9' :: '"' :: []))))

/-! ## Concrete instances used by witnesses and counterexamples -/

/-- Edge A trusts B at level 100. -/
def edgeAB : GraphEdge := ⟨"A", "B", 100, Option.none, Option.none⟩

/-- Edge B trusts C at level 100. -/
def edgeBC : GraphEdge := ⟨"B", "C", 100, Option.none, Option.none⟩

/-- The cycle scenario of the specification: A to B at 80, B to C at
90, C to A at 70. -/
def cycleEdges : List GraphEdge :=
  [⟨"A", "B", 80, Option.none, Option.none⟩,
   ⟨"B", "C", 90, Option.none, Option.none⟩,
   ⟨"C", "A", 70, Option.none, Option.none⟩]

/-- An edge whose expiry equals the observation time. -/
def edgeExpiresNow : GraphEdge := ⟨"A", "B", 80, Option.none, some 0⟩

/-- A small unsigned request with the default signable headers. -/
def sampleRequest : RequestLike := ⟨"get", "http://h/p", [("content-type", "t")], Option.none⟩

/-- A sample secret key for the model scheme. -/
def sampleSk : List Byte := List.replicate 32 (7 : Byte)

/-- A valid identifier: 32 leading base58 zeros decode to the 32-byte
zero key. -/
def sampleDid : String := "did:fides:11111111111111111111111111111111"

/-- Canonical attestation payload used by the create-trust instances. -/
def samplePayload : String := attPayloadString ⟨"u1", sampleDid, sampleDid, 80, "t0"⟩

/-- Hex signature over samplePayload under sampleSk. -/
def sampleSigHex : String := bytesToHex (ed25519Sign samplePayload sampleSk)

/-- The attestation createAttestation produces for the sample inputs. -/
def c7Att : TrustAttestation :=
  ⟨"u1", sampleDid, sampleDid, 80, "t0", sampleSigHex, samplePayload⟩

/-- Service state holding the sample identity and nothing else. -/
def sampleState : TrustServiceState :=
  ⟨[], 0, 0, ⟨[⟨sampleDid, pubOf sampleSk, 0⟩], [], []⟩⟩

/-- The create-trust request matching samplePayload. -/
def sampleCreateTrust : CreateTrustRequest :=
  ⟨sampleDid, sampleDid, 80, sampleSigHex, samplePayload, Option.none⟩

/-- A discovery resolver that never finds anything; the sample flows
have every identity already in the database. -/
def noResolve : String → Option (List Byte) := fun _ => Option.none

/-- The service state after the sample createTrust call succeeds. -/
def c2St1 : TrustServiceState :=
  ⟨[(sampleDid, 0)], 0, 0,
   ⟨[⟨sampleDid, pubOf sampleSk, 0⟩],
    [⟨"e1", sampleDid, sampleDid, 80, hexToBytes sampleSigHex.data, Option.none⟩], []⟩⟩

/-- The sample request signed with the sample key at time 100 with a
fixed nonce (the Except success is unwrapped with a default that is
never used, as the adjacent theorem proves). -/
def c1Signed : RequestLike :=
  (signRequest sampleRequest sampleSk SignOptions.none 100 "abc-123").toOption.getD
    sampleRequest

/-- First verification of c1Signed against a verifier configured with
an empty nonce store. -/
def c1First : VerifyResult × Option (List String) :=
  verifyRequest c1Signed (pubOf sampleSk) ⟨some [], Option.none⟩ 100

/-- Second verification of the same request, against the store state
left behind by the first verification. -/
def c1Second : VerifyResult × Option (List String) :=
  verifyRequest c1Signed (pubOf sampleSk) ⟨c1First.2, Option.none⟩ 100

/-- A Signature-Input header advertising the rsa algorithm. -/
def rsaSignatureInput : String :=
  "sig1=(\"@method\");created=1;expires=2;keyid=\"k\";alg=\"rsa\""

/-- A request carrying rsaSignatureInput but no Signature header. -/
def rsaRequestNoSig : RequestLike :=
  ⟨"get", "http://h/p", [("Signature-Input", rsaSignatureInput)], Option.none⟩

/-- A request carrying rsaSignatureInput and a Signature header. -/
def rsaRequestWithSig : RequestLike :=
  ⟨"get", "http://h/p",
   [("Signature-Input", rsaSignatureInput), ("Signature", "sig1=:ab:")], Option.none⟩

/-- Sign options whose label contains an equals sign. -/
def equalsLabelOptions : SignOptions := ⟨Option.none, Option.none, Option.none, some "a=b"⟩

/-- The request signed with the equals-sign label. -/
def c3EqSigned : RequestLike :=
  (signRequest sampleRequest sampleSk equalsLabelOptions 100 "abc-123").toOption.getD
    sampleRequest

/-- The all-zero 32-byte public key. -/
def zeroPk : List Byte := List.replicate 32 (0 : Byte)

/-! ## Lemmas about the Map model -/

theorem mapGetD_nil {α : Type} (k : String) : mapGetD ([] : List (String × List α)) k = [] := by
  simp [mapGetD]

theorem mapGetD_mapPush {α : Type} (m : List (String × List α)) (k k2 : String) (v : α) :
    mapGetD (mapPush m k v) k2 = mapGetD m k2 ++ (if k = k2 then [v] else []) := by
  induction m with
  | nil =>
    by_cases h : k = k2
    · subst h; simp [mapPush, mapGetD, List.find?]
    · have hb : (k == k2) = false := beq_eq_false_iff_ne.mpr h
      simp [mapPush, mapGetD, List.find?, hb, h]
  | cons hd tl ih =>
    obtain ⟨k0, l0⟩ := hd
    by_cases h0 : k0 = k
    · subst h0
      by_cases h2 : k0 = k2
      · subst h2; simp [mapPush, mapGetD, List.find?]
      · have hb2 : (k0 == k2) = false := beq_eq_false_iff_ne.mpr h2
        simp [mapPush, mapGetD, List.find?, hb2, h2]
    · have hb0 : (k0 == k) = false := beq_eq_false_iff_ne.mpr h0
      by_cases h2 : k0 = k2
      · subst h2
        have hk : ¬ k = k0 := fun hh => h0 hh.symm
        simp [mapPush, mapGetD, List.find?, hb0, hk]
      · have hb2 : (k0 == k2) = false := beq_eq_false_iff_ne.mpr h2
        simpa [mapPush, mapGetD, List.find?, hb0, hb2] using ih

theorem mapGetD_foldl_push {α : Type} (key : GraphEdge → String) (val : GraphEdge → α) :
    ∀ (es : List GraphEdge) (m : List (String × List α)) (k : String),
    mapGetD (es.foldl (fun acc e => mapPush acc (key e) (val e)) m) k
      = mapGetD m k ++ (es.filter (fun e => key e == k)).map val := by
  intro es
  induction es with
  | nil => intro m k; simp
  | cons e es ih =>
    intro m k
    by_cases h : key e = k
    · simp only [List.foldl_cons, ih, mapGetD_mapPush, h, if_pos rfl, List.filter_cons,
        List.map_cons, beq_self_eq_true]
      simp [List.append_assoc]
    · have hb : (key e == k) = false := by simpa using h
      simp [List.foldl_cons, ih, mapGetD_mapPush, h, List.filter_cons, hb]

theorem mapGetD_buildForwardIndex (ve : List GraphEdge) (k : String) :
    mapGetD (buildForwardIndex ve) k
      = (ve.filter (fun e => e.sourceDid == k)).map (fun e => ⟨e.targetDid, e.trustLevel⟩) := by
  unfold buildForwardIndex
  rw [mapGetD_foldl_push (fun e => e.sourceDid) (fun e => (⟨e.targetDid, e.trustLevel⟩ : FwdEntry))]
  simp [mapGetD]

theorem mapGetD_buildReverseIndex (ve : List GraphEdge) (k : String) :
    mapGetD (buildReverseIndex ve) k
      = (ve.filter (fun e => e.targetDid == k)).map (fun e => ⟨e.sourceDid, e.trustLevel⟩) := by
  unfold buildReverseIndex
  rw [mapGetD_foldl_push (fun e => e.targetDid) (fun e => (⟨e.sourceDid, e.trustLevel⟩ : RevEntry))]
  simp [mapGetD]

/-! ## Lemmas about jsSetOfList -/

theorem jsSetOfList_spec : ∀ (l acc : List String), acc.Nodup →
    ((l.foldl (fun acc s => if acc.contains s then acc else acc ++ [s]) acc).Nodup ∧
     ∀ x, x ∈ l.foldl (fun acc s => if acc.contains s then acc else acc ++ [s]) acc ↔
       x ∈ acc ∨ x ∈ l) := by
  intro l
  induction l with
  | nil => intro acc h; simpa using h
  | cons a l ih =>
    intro acc h
    by_cases hc : acc.contains a
    · have hmem : a ∈ acc := by simpa using hc
      have := ih acc h
      simp only [List.foldl_cons, if_pos hc]
      constructor
      · exact this.1
      · intro x
        rw [this.2 x]
        constructor
        · intro hx; rcases hx with hx | hx
          · exact Or.inl hx
          · exact Or.inr (List.mem_cons_of_mem _ hx)
        · intro hx; rcases hx with hx | hx
          · exact Or.inl hx
          · rcases List.mem_cons.mp hx with rfl | hx
            · exact Or.inl hmem
            · exact Or.inr hx
    · have hmem : a ∉ acc := by simpa using hc
      have hnd : (acc ++ [a]).Nodup := by
        simp [List.nodup_append, h, hmem]
      have := ih (acc ++ [a]) hnd
      simp only [List.foldl_cons, if_neg hc]
      constructor
      · exact this.1
      · intro x
        rw [this.2 x]
        simp only [List.mem_append, List.mem_singleton, List.mem_cons]
        tauto

theorem jsSetOfList_nodup (l : List String) : (jsSetOfList l).Nodup :=
  (jsSetOfList_spec l [] (by simp)).1

theorem mem_jsSetOfList (l : List String) (x : String) : x ∈ jsSetOfList l ↔ x ∈ l := by
  have := (jsSetOfList_spec l [] (by simp)).2 x
  simpa [jsSetOfList] using this

/-! ## Lemmas about pathCumFrom -/

theorem pathCumFrom_append (l : List TrustPathNode) (n : TrustPathNode) :
    ∀ d : ℕ, pathCumFrom (l ++ [n]) d
      = pathCumFrom l d * ((n.trustLevel / 100) * DEFAULT_TRUST_DECAY ^ (d + l.length)) := by
  induction l with
  | nil => intro d; simp [pathCumFrom]
  | cons a l ih =>
    intro d
    have h1 : (a :: l) ++ [n] = a :: (l ++ [n]) := rfl
    rw [h1]
    simp only [pathCumFrom]
    rw [ih (d + 1)]
    simp only [List.length_cons]
    have h2 : d + 1 + l.length = d + (l.length + 1) := by omega
    rw [h2]
    ring

theorem tail_append_single {α : Type} (l : List α) (x : α) (h : l ≠ []) :
    (l ++ [x]).tail = l.tail ++ [x] := by
  cases l with
  | nil => exact absurd rfl h
  | cons a l => simp

/-! ## The path BFS: fold and loop lemmas -/

theorem pathFold_spec (univ : List String) (maxDepth : ℕ) (current : QueueItem)
    (hcur : QItemInv maxDepth current) (hdep : current.depth < maxDepth) :
    ∀ (ns : List FwdEntry) (q : List QueueItem) (v : List String),
    v.Nodup → (∀ x ∈ v, x ∈ univ) → (∀ n ∈ ns, n.target ∈ univ) →
    (∀ it ∈ q, QItemInv maxDepth it ∧ QItemIn v it) →
    QItemIn v current →
    PFoldOut univ maxDepth q v (ns.foldl (pathNeighborStep current) (q, v)) := by
  intro ns
  induction ns with
  | nil =>
    intro q v hnd hsub _ hq hc
    exact ⟨hnd, hsub, by simp, fun x hx => hx, hq⟩
  | cons n ns ih =>
    intro q v hnd hsub hns hq hc
    simp only [List.foldl_cons]
    by_cases hmem : n.target ∈ v
    · have hstep : pathNeighborStep current (q, v) n = (q, v) := by
        simp [pathNeighborStep, hmem]
      rw [hstep]
      exact ih q v hnd hsub (fun m hm => hns m (List.mem_cons_of_mem _ hm)) hq hc
    · obtain ⟨hne, hcum, hlen, hnd2, hdle⟩ := hcur
      have hstep : pathNeighborStep current (q, v) n =
          (q ++ [pathNewItem current n], v ++ [n.target]) := by
        simp [pathNeighborStep, hmem]
      rw [hstep]
      have hnd3 : (v ++ [n.target]).Nodup := by
        simp [List.nodup_append, hnd, hmem]
      have hsub3 : ∀ x ∈ v ++ [n.target], x ∈ univ := by
        intro x hx
        rcases List.mem_append.mp hx with hx | hx
        · exact hsub x hx
        · rcases List.mem_singleton.mp hx with rfl
          exact hns n (List.mem_cons_self _ _)
      have htail : current.path.tail.length = current.depth := by
        have := List.length_tail current.path
        omega
      have hnewinv : QItemInv maxDepth (pathNewItem current n) := by
        refine ⟨by simp [pathNewItem], ?_, by simp [pathNewItem]; omega, ?_, ?_⟩
        · show (pathNewItem current n).cumulativeTrust
            = pathCumFrom (pathNewItem current n).path.tail 0
          simp only [pathNewItem]
          rw [tail_append_single _ _ hne, pathCumFrom_append, htail, hcum]
          simp
        · show ((pathNewItem current n).path.map TrustPathNode.did).Nodup
          simp only [pathNewItem]
          rw [List.map_append]
          simp only [List.map_cons, List.map_nil]
          rw [List.nodup_append]
          refine ⟨hnd2, by simp, ?_⟩
          intro x hx
          simp only [List.mem_singleton]
          intro hx2
          subst hx2
          exact hmem (hc _ hx)
        · show (pathNewItem current n).depth ≤ maxDepth
          simp only [pathNewItem]
          omega
      have hnewin : QItemIn (v ++ [n.target]) (pathNewItem current n) := by
        intro x hx
        simp only [pathNewItem, List.map_append, List.map_cons, List.map_nil,
          List.mem_append] at hx
        rcases hx with hx | hx
        · exact List.mem_append.mpr (Or.inl (hc x hx))
        · simp only [List.mem_singleton] at hx
          subst hx
          exact List.mem_append.mpr (Or.inr (by simp))
      have hq3 : ∀ it ∈ q ++ [pathNewItem current n],
          QItemInv maxDepth it ∧ QItemIn (v ++ [n.target]) it := by
        intro it hit
        rcases List.mem_append.mp hit with hit | hit
        · obtain ⟨h1, h2⟩ := hq it hit
          exact ⟨h1, fun x hx => List.mem_append.mpr (Or.inl (h2 x hx))⟩
        · rcases List.mem_singleton.mp hit with rfl
          exact ⟨hnewinv, hnewin⟩
      have hc3 : QItemIn (v ++ [n.target]) current := by
        intro x hx
        exact List.mem_append.mpr (Or.inl (hc x hx))
      have hout := ih _ _ hnd3 hsub3
        (fun m hm => hns m (List.mem_cons_of_mem _ hm)) hq3 hc3
      obtain ⟨o1, o2, o3, o4, o5⟩ := hout
      refine ⟨o1, o2, ?_, ?_, o5⟩
      · simp only [List.length_append, List.length_cons, List.length_nil] at o3 ⊢
        omega
      · intro x hx
        exact o4 x (List.mem_append.mpr (Or.inl hx))

theorem findTrustPathLoop_spec (adjacency : List (String × List FwdEntry))
    (fromDid toDid : String) (maxDepth : ℕ) (univ : List String)
    (hadj : ∀ d n, n ∈ mapGetD adjacency d → n.target ∈ univ) :
    ∀ (fuel : ℕ) (q : List QueueItem) (v : List String),
    PLoopInv univ maxDepth q v →
    q.length + (univ.length + 1 - v.length) ≤ fuel →
    ∃ r, findTrustPathLoop adjacency fromDid toDid maxDepth fuel q v = some r ∧
      (r.found = true →
        r.cumulativeTrust = pathCumFrom r.path.tail 0 ∧
        r.hops + 1 = r.path.length ∧
        (r.path.map TrustPathNode.did).Nodup ∧
        r.hops ≤ maxDepth) := by
  intro fuel
  induction fuel with
  | zero =>
    intro q v hinv hfuel
    exfalso
    obtain ⟨hnd, hsub, _⟩ := hinv
    have hlen : v.length ≤ univ.length := (List.subperm_of_subset hnd hsub).length_le
    omega
  | succ fuel ih =>
    intro q v hinv hfuel
    cases q with
    | nil =>
      refine ⟨{ from2 := fromDid, to2 := toDid, found := false, path := []
                cumulativeTrust := 0, hops := 0 }, ?_, ?_⟩
      · simp [findTrustPathLoop]
      · intro h
        simp at h
    | cons current rest =>
      obtain ⟨hnd, hsub, hitems⟩ := hinv
      have hvlen : v.length ≤ univ.length := (List.subperm_of_subset hnd hsub).length_le
      have hcur := hitems current (List.mem_cons_self _ _)
      by_cases hhit : (current.did == toDid) = true
      · refine ⟨{ from2 := fromDid, to2 := toDid, found := true, path := current.path
                  cumulativeTrust := current.cumulativeTrust, hops := current.depth },
          ?_, ?_⟩
        · simp [findTrustPathLoop, hhit]
        · intro _
          obtain ⟨⟨_, hcum, hlen, hnd2, hdle⟩, _⟩ := hcur
          exact ⟨hcum, hlen, hnd2, hdle⟩
      · by_cases hdep : maxDepth ≤ current.depth
        · have hrec := ih rest v
            ⟨hnd, hsub, fun it hit => hitems it (List.mem_cons_of_mem _ hit)⟩
            (by simp only [List.length_cons] at hfuel; omega)
          obtain ⟨r, hr, hp⟩ := hrec
          refine ⟨r, ?_, hp⟩
          simpa [findTrustPathLoop, hhit, hdep] using hr
        · have hdep2 : current.depth < maxDepth := by omega
          have hfold := pathFold_spec univ maxDepth current hcur.1 hdep2
            (mapGetD adjacency current.did) rest v hnd hsub
            (fun n hn => hadj current.did n hn)
            (fun it hit => hitems it (List.mem_cons_of_mem _ hit)) hcur.2
          obtain ⟨o1, o2, o3, o4, o5⟩ := hfold
          have ho2len : ((mapGetD adjacency current.did).foldl (pathNeighborStep current)
              (rest, v)).2.length ≤ univ.length :=
            (List.subperm_of_subset o1 o2).length_le
          have hrec := ih ((mapGetD adjacency current.did).foldl (pathNeighborStep current)
              (rest, v)).1
            ((mapGetD adjacency current.did).foldl (pathNeighborStep current) (rest, v)).2
            ⟨o1, o2, o5⟩
            (by simp only [List.length_cons] at hfuel; omega)
          obtain ⟨r, hr, hp⟩ := hrec
          refine ⟨r, ?_, hp⟩
          simpa [findTrustPathLoop, hhit, hdep] using hr

theorem findTrustPathLoop_fuel_eq (adjacency : List (String × List FwdEntry))
    (fromDid toDid : String) (maxDepth : ℕ) (univ : List String)
    (hadj : ∀ d n, n ∈ mapGetD adjacency d → n.target ∈ univ) :
    ∀ (fuel fuel2 : ℕ) (q : List QueueItem) (v : List String),
    PLoopInv univ maxDepth q v →
    q.length + (univ.length + 1 - v.length) ≤ fuel →
    q.length + (univ.length + 1 - v.length) ≤ fuel2 →
    findTrustPathLoop adjacency fromDid toDid maxDepth fuel q v
      = findTrustPathLoop adjacency fromDid toDid maxDepth fuel2 q v := by
  intro fuel
  induction fuel with
  | zero =>
    intro fuel2 q v hinv hfuel _
    exfalso
    obtain ⟨hnd, hsub, _⟩ := hinv
    have hlen : v.length ≤ univ.length := (List.subperm_of_subset hnd hsub).length_le
    omega
  | succ fuel ih =>
    intro fuel2 q v hinv hfuel hfuel2
    obtain ⟨hnd, hsub, hitems⟩ := hinv
    have hvlen : v.length ≤ univ.length := (List.subperm_of_subset hnd hsub).length_le
    cases fuel2 with
    | zero => exfalso; omega
    | succ fuel2 =>
      cases q with
      | nil => simp [findTrustPathLoop]
      | cons current rest =>
        have hcur := hitems current (List.mem_cons_self _ _)
        by_cases hhit : (current.did == toDid) = true
        · simp [findTrustPathLoop, hhit]
        · by_cases hdep : maxDepth ≤ current.depth
          · have := ih fuel2 rest v
              ⟨hnd, hsub, fun it hit => hitems it (List.mem_cons_of_mem _ hit)⟩
              (by simp only [List.length_cons] at hfuel; omega)
              (by simp only [List.length_cons] at hfuel2; omega)
            simpa [findTrustPathLoop, hhit, hdep] using this
          · have hdep2 : current.depth < maxDepth := by omega
            have hfold := pathFold_spec univ maxDepth current hcur.1 hdep2
              (mapGetD adjacency current.did) rest v hnd hsub
              (fun n hn => hadj current.did n hn)
              (fun it hit => hitems it (List.mem_cons_of_mem _ hit)) hcur.2
            obtain ⟨o1, o2, o3, o4, o5⟩ := hfold
            have ho2len : ((mapGetD adjacency current.did).foldl (pathNeighborStep current)
                (rest, v)).2.length ≤ univ.length :=
              (List.subperm_of_subset o1 o2).length_le
            have := ih fuel2
              ((mapGetD adjacency current.did).foldl (pathNeighborStep current) (rest, v)).1
              ((mapGetD adjacency current.did).foldl (pathNeighborStep current) (rest, v)).2
              ⟨o1, o2, o5⟩
              (by simp only [List.length_cons] at hfuel; omega)
              (by simp only [List.length_cons] at hfuel2; omega)
            simpa [findTrustPathLoop, hhit, hdep] using this

theorem findTrustPath_univ_adj (ve : List GraphEdge) (a : String) :
    ∀ d n, n ∈ mapGetD (buildForwardIndex ve) d →
      n.target ∈ a :: ve.map GraphEdge.targetDid := by
  intro d n hn
  rw [mapGetD_buildForwardIndex] at hn
  simp only [List.mem_map] at hn
  obtain ⟨e, he, rfl⟩ := hn
  exact List.mem_cons_of_mem _ (List.mem_map.mpr ⟨e, List.mem_of_mem_filter he, rfl⟩)

theorem findTrustPath_init_inv (a : String) (maxDepth : ℕ) (univ : List String)
    (ha : a ∈ univ) :
    PLoopInv univ maxDepth [⟨a, [⟨a, 100⟩], 1, 0⟩] [a] := by
  refine ⟨by simp, ?_, ?_⟩
  · intro x hx
    rcases List.mem_singleton.mp hx with rfl
    exact ha
  · intro it hit
    rcases List.mem_singleton.mp hit with rfl
    refine ⟨⟨by simp, by simp [pathCumFrom], by simp, by simp, by simp⟩, ?_⟩
    intro x hx
    simpa using hx

theorem findTrustPath_props (edges : List GraphEdge) (a b : String) (maxDepth : ℕ)
    (now : ℤ) :
    (findTrustPathLoop (buildForwardIndex (edges.filter (edgeIsValid now))) a b maxDepth
      (edges.length + 2) [⟨a, [⟨a, 100⟩], 1, 0⟩] [a]).isSome = true ∧
    ((findTrustPath edges a b maxDepth now).found = true →
      (findTrustPath edges a b maxDepth now).cumulativeTrust
        = pathCumFrom (findTrustPath edges a b maxDepth now).path.tail 0 ∧
      (findTrustPath edges a b maxDepth now).hops + 1
        = (findTrustPath edges a b maxDepth now).path.length ∧
      ((findTrustPath edges a b maxDepth now).path.map TrustPathNode.did).Nodup ∧
      (findTrustPath edges a b maxDepth now).hops ≤ maxDepth) := by
  have hμ : 1 + ((a :: (edges.filter (edgeIsValid now)).map GraphEdge.targetDid).length
      + 1 - 1) ≤ edges.length + 2 := by
    have := List.length_filter_le (edgeIsValid now) edges
    simp only [List.length_cons, List.length_map]
    omega
  obtain ⟨r, hr, hp⟩ := findTrustPathLoop_spec
    (buildForwardIndex (edges.filter (edgeIsValid now))) a b maxDepth
    (a :: (edges.filter (edgeIsValid now)).map GraphEdge.targetDid)
    (findTrustPath_univ_adj _ a) (edges.length + 2) _ _
    (findTrustPath_init_inv a maxDepth _ (List.mem_cons_self _ _)) hμ
  have heq : findTrustPath edges a b maxDepth now = r := by
    unfold findTrustPath
    simp only [hr, Option.getD_some]
  constructor
  · simp [hr]
  · rw [heq]
    exact hp

/-- C10: for every edge set and identifier a, findTrustPath from a to
a returns found, zero hops, cumulative trust one and the one-element
path carrying trust level 100: the source vertex is dequeued first
and matches the target before any edge is traversed. -/
theorem c10_self_path_trivial (edges : List GraphEdge) (a : String) (maxDepth : ℕ)
    (now : ℤ) :
    findTrustPath edges a a maxDepth now =
      { from2 := a, to2 := a, found := true, path := [⟨a, 100⟩]
        cumulativeTrust := 1, hops := 0 } := by
  unfold findTrustPath
  simp [findTrustPathLoop]

/-- C6: whenever findTrustPath reports a path, the returned cumulative
trust is exactly the product over d from 0 to hops - 1 of
(w(d+1) / 100) * decay ^ d, where w(d+1) is the raw trust level
carried by the (d+1)-st path node (pathCumFrom applied to the path
tail at depth 0), and the returned path has hops + 1 nodes. -/
theorem c6_cumulative_trust_is_decay_product (edges : List GraphEdge) (a b : String)
    (maxDepth : ℕ) (now : ℤ)
    (h : (findTrustPath edges a b maxDepth now).found = true) :
    (findTrustPath edges a b maxDepth now).cumulativeTrust
      = pathCumFrom (findTrustPath edges a b maxDepth now).path.tail 0 ∧
    (findTrustPath edges a b maxDepth now).hops + 1
      = (findTrustPath edges a b maxDepth now).path.length := by
  have hp := (findTrustPath_props edges a b maxDepth now).2 h
  exact ⟨hp.1, hp.2.1⟩

/-- Witness for C6 on the two-hop scenario of the specification:
edges A to B at 100 and B to C at 100 give hops 2 and cumulative
trust 0.85. -/
theorem c6_witness :
    (findTrustPath [edgeAB, edgeBC] "A" "C" 6 0).found = true ∧
    (findTrustPath [edgeAB, edgeBC] "A" "C" 6 0).cumulativeTrust
      = pathCumFrom (findTrustPath [edgeAB, edgeBC] "A" "C" 6 0).path.tail 0 ∧
    (findTrustPath [edgeAB, edgeBC] "A" "C" 6 0).hops = 2 ∧
    (findTrustPath [edgeAB, edgeBC] "A" "C" 6 0).cumulativeTrust = 0.85 := by
  have hfound : (findTrustPath [edgeAB, edgeBC] "A" "C" 6 0).found = true := by decide
  have hprod :=
    (c6_cumulative_trust_is_decay_product [edgeAB, edgeBC] "A" "C" 6 0 hfound).1
  have hpath : (findTrustPath [edgeAB, edgeBC] "A" "C" 6 0).path
      = [⟨"A", 100⟩, ⟨"B", 100⟩, ⟨"C", 100⟩] := by decide
  refine ⟨hfound, hprod, by decide, ?_⟩
  rw [hprod, hpath]
  norm_num [pathCumFrom, DEFAULT_TRUST_DECAY]

/-- C8: the BFS loop never exhausts its iteration bound (the model of
termination of the source while loop, whose visited set admits each
vertex once), and a found result has at most maxDepth hops and
pairwise distinct path vertices. -/
theorem c8_termination_bound_nodup (edges : List GraphEdge) (a b : String)
    (maxDepth : ℕ) (now : ℤ) :
    (findTrustPathLoop (buildForwardIndex (filterValidEdges edges now)) a b maxDepth
      (edges.length + 2) [⟨a, [⟨a, 100⟩], 1, 0⟩] [a]).isSome = true ∧
    ((findTrustPath edges a b maxDepth now).found = true →
      (findTrustPath edges a b maxDepth now).hops ≤ maxDepth ∧
      ((findTrustPath edges a b maxDepth now).path.map TrustPathNode.did).Nodup) := by
  have h := findTrustPath_props edges a b maxDepth now
  refine ⟨h.1, ?_⟩
  intro hf
  exact ⟨(h.2 hf).2.2.2, (h.2 hf).2.2.1⟩

/-- Witness for C8 on the cycle scenario of the specification: edges
A to B at 80, B to C at 90, C to A at 70; the search terminates and
finds C in two hops with distinct vertices. -/
theorem c8_witness :
    ((findTrustPath cycleEdges "A" "C" 6 0).hops ≤ 6 ∧
     ((findTrustPath cycleEdges "A" "C" 6 0).path.map TrustPathNode.did).Nodup) ∧
    (findTrustPathLoop (buildForwardIndex (filterValidEdges cycleEdges 0)) "A" "C" 6
      (cycleEdges.length + 2) [⟨"A", [⟨"A", 100⟩], 1, 0⟩] ["A"]).isSome = true ∧
    (findTrustPath cycleEdges "A" "C" 6 0).found = true ∧
    (findTrustPath cycleEdges "A" "C" 6 0).hops = 2 :=
  ⟨(c8_termination_bound_nodup cycleEdges "A" "C" 6 0).2 (by decide),
   (c8_termination_bound_nodup cycleEdges "A" "C" 6 0).1,
   by decide, by decide⟩

/-! ## The reputation BFS: fold and loop lemmas -/

theorem repFold_spec (univ : List String) (current : RepQueueItem) :
    ∀ (ns : List RevEntry) (q : List RepQueueItem) (v tr : List String) (sc : ℚ),
    v.Nodup → (∀ x ∈ v, x ∈ univ) → (∀ n ∈ ns, n.sourceDid ∈ univ) →
    RFoldOut univ q v (ns.foldl (repNeighborStep current) ⟨q, v, tr, sc⟩) := by
  intro ns
  induction ns with
  | nil =>
    intro q v tr sc hnd hsub _
    exact ⟨hnd, hsub, by simp⟩
  | cons n ns ih =>
    intro q v tr sc hnd hsub hns
    simp only [List.foldl_cons]
    by_cases hmem : n.sourceDid ∈ v
    · have hstep : repNeighborStep current ⟨q, v, tr, sc⟩ n = ⟨q, v, tr, sc⟩ := by
        simp [repNeighborStep, hmem]
      rw [hstep]
      exact ih q v tr sc hnd hsub (fun m hm => hns m (List.mem_cons_of_mem _ hm))
    · have hstep : repNeighborStep current ⟨q, v, tr, sc⟩ n =
          ⟨q ++ [⟨n.sourceDid, current.depth + 1,
                  current.pathTrust * (n.trustLevel / 100) *
                    DEFAULT_TRUST_DECAY ^ current.depth⟩],
           v ++ [n.sourceDid], tr ++ [n.sourceDid],
           sc + current.pathTrust * (n.trustLevel / 100) *
             DEFAULT_TRUST_DECAY ^ current.depth⟩ := by
        simp [repNeighborStep, hmem]
      rw [hstep]
      have hnd3 : (v ++ [n.sourceDid]).Nodup := by
        simp [List.nodup_append, hnd, hmem]
      have hsub3 : ∀ x ∈ v ++ [n.sourceDid], x ∈ univ := by
        intro x hx
        rcases List.mem_append.mp hx with hx | hx
        · exact hsub x hx
        · rcases List.mem_singleton.mp hx with rfl
          exact hns n (List.mem_cons_self _ _)
      have hout := ih
        (q ++ [⟨n.sourceDid, current.depth + 1,
                current.pathTrust * (n.trustLevel / 100) *
                  DEFAULT_TRUST_DECAY ^ current.depth⟩])
        (v ++ [n.sourceDid]) (tr ++ [n.sourceDid])
        (sc + current.pathTrust * (n.trustLevel / 100) *
          DEFAULT_TRUST_DECAY ^ current.depth)
        hnd3 hsub3 (fun m hm => hns m (List.mem_cons_of_mem _ hm))
      obtain ⟨o1, o2, o3⟩ := hout
      refine ⟨o1, o2, ?_⟩
      simp only [List.length_append, List.length_cons, List.length_nil] at o3 ⊢
      omega

theorem repLoop_fuel_eq (incoming : String → List RevEntry) (univ : List String)
    (hin : ∀ d n, n ∈ incoming d → n.sourceDid ∈ univ) :
    ∀ (fuel fuel2 : ℕ) (q : List RepQueueItem) (v tr : List String) (sc : ℚ),
    v.Nodup → (∀ x ∈ v, x ∈ univ) →
    q.length + (univ.length + 1 - v.length) ≤ fuel →
    q.length + (univ.length + 1 - v.length) ≤ fuel2 →
    repLoop incoming fuel q v tr sc = repLoop incoming fuel2 q v tr sc := by
  intro fuel
  induction fuel with
  | zero =>
    intro fuel2 q v tr sc hnd hsub hfuel _
    exfalso
    have hlen : v.length ≤ univ.length := (List.subperm_of_subset hnd hsub).length_le
    omega
  | succ fuel ih =>
    intro fuel2 q v tr sc hnd hsub hfuel hfuel2
    have hvlen : v.length ≤ univ.length := (List.subperm_of_subset hnd hsub).length_le
    cases fuel2 with
    | zero => exfalso; omega
    | succ fuel2 =>
      cases q with
      | nil => simp [repLoop]
      | cons current rest =>
        by_cases hdep : 3 ≤ current.depth
        · have := ih fuel2 rest v tr sc hnd hsub
            (by simp only [List.length_cons] at hfuel; omega)
            (by simp only [List.length_cons] at hfuel2; omega)
          simpa [repLoop, hdep] using this
        · have hfold := repFold_spec univ current (incoming current.did) rest v tr sc
            hnd hsub (fun n hn => hin current.did n hn)
          obtain ⟨o1, o2, o3⟩ := hfold
          have ho2len : ((incoming current.did).foldl (repNeighborStep current)
              ⟨rest, v, tr, sc⟩).visited.length ≤ univ.length :=
            (List.subperm_of_subset o1 o2).length_le
          have := ih fuel2
            ((incoming current.did).foldl (repNeighborStep current) ⟨rest, v, tr, sc⟩).queue
            ((incoming current.did).foldl (repNeighborStep current) ⟨rest, v, tr, sc⟩).visited
            ((incoming current.did).foldl (repNeighborStep current) ⟨rest, v, tr, sc⟩).trans
            ((incoming current.did).foldl (repNeighborStep current) ⟨rest, v, tr, sc⟩).score
            o1 o2
            (by simp only [List.length_cons] at hfuel; omega)
            (by simp only [List.length_cons] at hfuel2; omega)
          simpa [repLoop, hdep] using this

theorem jsSetOfList_length_le (l : List String) : (jsSetOfList l).length ≤ l.length :=
  (List.subperm_of_subset (jsSetOfList_nodup l)
    (fun _ hx => (mem_jsSetOfList l _).mp hx)).length_le

theorem jsSetOfList_sub_length {l l2 : List String} (h : ∀ x ∈ l, x ∈ l2) :
    (jsSetOfList l).length ≤ l2.length :=
  (List.subperm_of_subset (jsSetOfList_nodup l)
    (fun x hx => h x ((mem_jsSetOfList l x).mp hx))).length_le

theorem reputationFrom_fuel_irrel (incoming : String → List RevEntry) (did : String)
    (directPairs : List RevEntry) (univ : List String)
    (hin : ∀ d n, n ∈ incoming d → n.sourceDid ∈ univ)
    (hv0 : ∀ x ∈ jsSetOfList
      (did :: jsSetOfList (directPairs.map (fun e => e.sourceDid))), x ∈ univ)
    (fuel fuel2 : ℕ)
    (hf : (jsSetOfList (directPairs.map (fun e => e.sourceDid))).length +
      (univ.length + 1 - (jsSetOfList
        (did :: jsSetOfList (directPairs.map (fun e => e.sourceDid)))).length) ≤ fuel)
    (hf2 : (jsSetOfList (directPairs.map (fun e => e.sourceDid))).length +
      (univ.length + 1 - (jsSetOfList
        (did :: jsSetOfList (directPairs.map (fun e => e.sourceDid)))).length) ≤ fuel2) :
    reputationFrom incoming did directPairs fuel
      = reputationFrom incoming did directPairs fuel2 := by
  simp only [reputationFrom]
  rw [repLoop_fuel_eq incoming univ hin fuel fuel2 _ _ _ _ (jsSetOfList_nodup _) hv0
    (by simpa using hf) (by simpa using hf2)]

theorem computeRep_opt_eq_naive (edges : List GraphEdge) (did : String) (now : ℤ) :
    computeReputationScoreOpt edges did now = computeReputationScoreNaive edges did now := by
  simp only [computeReputationScoreOpt, computeReputationScoreNaive, filterValidEdges]
  have h1 : (fun d => mapGetD (buildReverseIndex (edges.filter (edgeIsValid now))) d)
      = fun d => ((edges.filter (edgeIsValid now)).filter
          (fun e => e.targetDid == d)).map (fun e => ⟨e.sourceDid, e.trustLevel⟩) :=
    funext (fun d => mapGetD_buildReverseIndex _ d)
  rw [h1, mapGetD_buildReverseIndex]

theorem filter_edgeIsValid_idem (edges : List GraphEdge) (now : ℤ) :
    (edges.filter (edgeIsValid now)).filter (edgeIsValid now)
      = edges.filter (edgeIsValid now) := by
  rw [List.filter_filter]
  simp

theorem computeRepNaive_filter_invariant (edges : List GraphEdge) (did : String)
    (now : ℤ) :
    computeReputationScoreNaive edges did now
      = computeReputationScoreNaive (filterValidEdges edges now) did now := by
  simp only [computeReputationScoreNaive, filterValidEdges]
  rw [filter_edgeIsValid_idem]
  have hin : ∀ d n, n ∈ ((edges.filter (edgeIsValid now)).filter
          (fun e => e.targetDid == d)).map
        (fun e => (⟨e.sourceDid, e.trustLevel⟩ : RevEntry)) →
      n.sourceDid ∈ jsSetOfList
        (did :: (edges.filter (edgeIsValid now)).map (fun e => e.sourceDid)) := by
    intro d n hn
    simp only [List.mem_map] at hn
    obtain ⟨e, he, rfl⟩ := hn
    exact (mem_jsSetOfList _ _).mpr
      (List.mem_cons_of_mem _ (List.mem_map.mpr ⟨e, List.mem_of_mem_filter he, rfl⟩))
  have hv0 : ∀ x ∈ jsSetOfList (did :: jsSetOfList
        ((((edges.filter (edgeIsValid now)).filter (fun e => e.targetDid == did)).map
          (fun e => (⟨e.sourceDid, e.trustLevel⟩ : RevEntry))).map
            (fun e => e.sourceDid))),
      x ∈ jsSetOfList
        (did :: (edges.filter (edgeIsValid now)).map (fun e => e.sourceDid)) := by
    intro x hx
    have hx2 := (mem_jsSetOfList _ _).mp hx
    rcases List.mem_cons.mp hx2 with rfl | hx3
    · exact (mem_jsSetOfList _ _).mpr (List.mem_cons_self _ _)
    · have hx4 := (mem_jsSetOfList _ _).mp hx3
      simp only [List.map_map, List.mem_map] at hx4
      obtain ⟨e, he, rfl⟩ := hx4
      exact (mem_jsSetOfList _ _).mpr
        (List.mem_cons_of_mem _ (List.mem_map.mpr ⟨e, List.mem_of_mem_filter he, rfl⟩))
  have fDT : (jsSetOfList
      ((((edges.filter (edgeIsValid now)).filter (fun e => e.targetDid == did)).map
        (fun e => (⟨e.sourceDid, e.trustLevel⟩ : RevEntry))).map
          (fun e => e.sourceDid))).length
      ≤ (edges.filter (edgeIsValid now)).length := by
    refine le_trans (jsSetOfList_length_le _) ?_
    simp only [List.length_map]
    exact List.length_filter_le _ _
  have fv0pos : 1 ≤ (jsSetOfList (did :: jsSetOfList
      ((((edges.filter (edgeIsValid now)).filter (fun e => e.targetDid == did)).map
        (fun e => (⟨e.sourceDid, e.trustLevel⟩ : RevEntry))).map
          (fun e => e.sourceDid)))).length := by
    have : did ∈ jsSetOfList (did :: jsSetOfList
        ((((edges.filter (edgeIsValid now)).filter (fun e => e.targetDid == did)).map
          (fun e => (⟨e.sourceDid, e.trustLevel⟩ : RevEntry))).map
            (fun e => e.sourceDid))) :=
      (mem_jsSetOfList _ _).mpr (List.mem_cons_self _ _)
    have hne := List.ne_nil_of_mem this
    have := List.length_pos.mpr hne
    omega
  have fU : (jsSetOfList
      (did :: (edges.filter (edgeIsValid now)).map (fun e => e.sourceDid))).length
      ≤ 1 + (edges.filter (edgeIsValid now)).length := by
    refine le_trans (jsSetOfList_length_le _) ?_
    simp only [List.length_cons, List.length_map]
    omega
  have fve : (edges.filter (edgeIsValid now)).length ≤ edges.length :=
    List.length_filter_le _ _
  exact reputationFrom_fuel_irrel _ did _
    (jsSetOfList (did :: (edges.filter (edgeIsValid now)).map (fun e => e.sourceDid)))
    hin hv0 _ _ (by omega) (by omega)

theorem findTrustPath_filter_invariant (edges : List GraphEdge) (a b : String)
    (maxDepth : ℕ) (now : ℤ) :
    findTrustPath edges a b maxDepth now
      = findTrustPath (filterValidEdges edges now) a b maxDepth now := by
  simp only [findTrustPath, filterValidEdges]
  rw [filter_edgeIsValid_idem]
  have fve : (edges.filter (edgeIsValid now)).length ≤ edges.length :=
    List.length_filter_le _ _
  rw [findTrustPathLoop_fuel_eq (buildForwardIndex (edges.filter (edgeIsValid now)))
    a b maxDepth (a :: (edges.filter (edgeIsValid now)).map GraphEdge.targetDid)
    (findTrustPath_univ_adj _ a) (edges.length + 2)
    ((edges.filter (edgeIsValid now)).length + 2) _ _
    (findTrustPath_init_inv a maxDepth _ (List.mem_cons_self _ _))
    (by simp only [List.length_cons, List.length_map, List.length_nil]; omega)
    (by simp only [List.length_cons, List.length_map, List.length_nil]; omega)]

/-- C9: the naive computeReputationScore of types.ts (array-filter
adjacency, shift dequeue) and the optimized computeReputationScore of
scoring.ts (reverse index, index dequeue) return identical results on
every edge set and subject: equal score, equal directTrusters and
equal transitiveTrusters. -/
theorem c9_reputation_naive_eq_optimized (edges : List GraphEdge) (did : String)
    (now : ℤ) :
    computeReputationScoreNaive edges did now = computeReputationScoreOpt edges did now :=
  (computeRep_opt_eq_naive edges did now).symm

/-- C5 (amended): an edge is admitted exactly when it is not revoked
and not yet strictly expired, so an edge whose expiresAt equals now is
kept (the source compares with a strict less-than on the expiry side);
and both path search and the two reputation scorers depend only on
the admitted edges. -/
theorem c5_valid_edge_filter_and_usage (edges : List GraphEdge) (now : ℤ) :
    (∀ e : GraphEdge, e ∈ filterValidEdges edges now ↔
      e ∈ edges ∧ e.revokedAt = Option.none ∧
        (e.expiresAt = Option.none ∨ ∃ t, e.expiresAt = some t ∧ ¬ t < now)) ∧
    (∀ a b maxDepth, findTrustPath edges a b maxDepth now
      = findTrustPath (filterValidEdges edges now) a b maxDepth now) ∧
    (∀ did, computeReputationScoreNaive edges did now
      = computeReputationScoreNaive (filterValidEdges edges now) did now) ∧
    (∀ did, computeReputationScoreOpt edges did now
      = computeReputationScoreOpt (filterValidEdges edges now) did now) := by
  refine ⟨?_, ?_, ?_, ?_⟩
  · intro e
    rw [filterValidEdges, List.mem_filter]
    constructor
    · rintro ⟨hmem, hval⟩
      refine ⟨hmem, ?_, ?_⟩
      · unfold edgeIsValid at hval
        by_cases hr : e.revokedAt.isSome
        · simp [hr] at hval
        · simpa using hr
      · unfold edgeIsValid at hval
        by_cases hr : e.revokedAt.isSome
        · simp [hr] at hval
        · rw [if_neg hr] at hval
          match he : e.expiresAt with
          | Option.none => exact Or.inl rfl
          | some t =>
            rw [he] at hval
            refine Or.inr ⟨t, rfl, ?_⟩
            by_cases hlt : t < now
            · simp [hlt] at hval
            · exact hlt
    · rintro ⟨hmem, hrev, hexp⟩
      refine ⟨hmem, ?_⟩
      unfold edgeIsValid
      rw [hrev]
      simp only [Option.isSome_none, Bool.false_eq_true, if_false]
      rcases hexp with he | ⟨t, he, hlt⟩
      · rw [he]
      · rw [he]
        simp [hlt]
  · intro a b maxDepth
    exact findTrustPath_filter_invariant edges a b maxDepth now
  · intro did
    exact computeRepNaive_filter_invariant edges did now
  · intro did
    calc computeReputationScoreOpt edges did now
        = computeReputationScoreNaive edges did now := computeRep_opt_eq_naive edges did now
      _ = computeReputationScoreNaive (filterValidEdges edges now) did now :=
          computeRepNaive_filter_invariant edges did now
      _ = computeReputationScoreOpt (filterValidEdges edges now) did now :=
          (computeRep_opt_eq_naive (filterValidEdges edges now) did now).symm

/-- Counterexample to C5 as stated: an edge whose expiresAt equals the
current time is admitted by the filter and traversed by findTrustPath,
although the claim says the admitted set requires expiresAt strictly
greater than now. -/
theorem c5_counterexample :
    edgeExpiresNow.expiresAt = some 0 ∧
    filterValidEdges [edgeExpiresNow] 0 = [edgeExpiresNow] ∧
    (findTrustPath [edgeExpiresNow] "A" "B" 6 0).found = true := by
  refine ⟨rfl, by decide, by decide⟩

/-- C1 (the code contradicts the claim): the signed request carries a
nonce parameter in its Signature-Input header, yet submitting it twice
to a verifier holding a nonce store leaves the store untouched and
both calls return valid, because parseSignatureInput never extracts
the nonce (canonicalize.ts has no nonce field in SignatureParams and
no nonce regex), so the replay branch of verify.ts is dead code. -/
theorem c1_replay_never_detected :
    (signRequest sampleRequest sampleSk SignOptions.none 100 "abc-123").isOk = true ∧
    (assocGet c1Signed.headers "Signature-Input").getD "" =
      "sig1=(\"@method\" \"@target-uri\" \"@authority\" \"content-type\");created=100;expires=400;nonce=\"abc-123\";keyid=\"unknown\";alg=\"ed25519\"" ∧
    (parseSignatureInput ((assocGet c1Signed.headers "Signature-Input").getD "")).toOption.map
      (fun p => p.params.nonce) = some Option.none ∧
    c1First.1.valid = true ∧
    c1First.2 = some [] ∧
    c1Second.1.valid = true ∧
    c1Second.1.error = Option.none := by
  set_option maxRecDepth 10000 in decide

/-- Counterexample to C4 as stated: this request's Signature-Input
header parses with alg rsa, yet verifyRequest reports the
missing-Signature-header error rather than an unsupported-algorithm
error, because the header pair is checked before the algorithm. -/
theorem c4_counterexample :
    (parseSignatureInput rsaSignatureInput).toOption.map (fun p => p.params.alg)
      = some "rsa" ∧
    (verifyRequest rsaRequestNoSig zeroPk VerifyOptions.none 0).1 =
      ⟨false, Option.none, some "Missing Signature or Signature-Input headers"⟩ := by
  set_option maxRecDepth 4000 in decide

/-- C4 (amended): whenever the public key has the proper length, both
signature headers are present and non-empty, and the Signature-Input
header parses with an algorithm other than ed25519, verifyRequest
rejects with exactly the unsupported-algorithm error (naming the
parsed keyid) and leaves the nonce store untouched, never reaching
Ed25519 verification. -/
theorem c4_unsupported_algorithm_rejected (request : RequestLike)
    (publicKey : List Byte) (options : VerifyOptions) (now : ℤ)
    (label : String) (params : SignatureParams)
    (hpk : publicKey.length = ED25519_PUBLIC_KEY_LENGTH)
    (hsi : jsFalsy (jsStringOr (assocGet request.headers "Signature-Input")
      (assocGet request.headers "signature-input")) = false)
    (hsig : jsFalsy (jsStringOr (assocGet request.headers "Signature")
      (assocGet request.headers "signature")) = false)
    (hparse : parseSignatureInput ((jsStringOr (assocGet request.headers "Signature-Input")
      (assocGet request.headers "signature-input")).getD "") = .ok ⟨label, params⟩)
    (halg : params.alg ≠ ALGORITHM) :
    verifyRequest request publicKey options now =
      (⟨false, some params.keyid,
        some ("Unsupported algorithm: " ++ params.alg ++ ". Only ed25519 is supported.")⟩,
       options.nonceStore) := by
  unfold verifyRequest
  rw [if_neg (by rw [hpk]; exact fun h => h rfl)]
  simp [hsi, hsig, hparse, halg]

/-- Witness for the amended C4: the rsa-algorithm request with both
headers present is rejected with the unsupported-algorithm error. -/
theorem c4_witness :
    verifyRequest rsaRequestWithSig zeroPk VerifyOptions.none 0 =
      (⟨false, some "k", some "Unsupported algorithm: rsa. Only ed25519 is supported."⟩,
       Option.none) := by
  have h := c4_unsupported_algorithm_rejected rsaRequestWithSig zeroPk VerifyOptions.none 0
    "sig1" ⟨["@method"], 1, 2, "k", "rsa", Option.none⟩
    (by decide) (by decide) (by decide) (by rfl) (by decide)
  simpa using h

/-! ## Attestation envelope integrity (claim C7) -/

/-- timingSafeStringEqual accepts equal strings. -/
theorem tsse_of_eq {a b : String} (h : a = b) : timingSafeStringEqual a b = true := by
  subst h
  simp [timingSafeStringEqual]

/-- timingSafeStringEqual rejects distinct strings (the length guard
only short-circuits cases the byte comparison would reject anyway). -/
theorem tsse_ne {a b : String} (h : a ≠ b) : timingSafeStringEqual a b = false := by
  unfold timingSafeStringEqual
  by_cases hl : a.length = b.length
  · rw [if_neg (not_not_intro hl)]
    exact beq_eq_false_iff_ne.mpr h
  · rw [if_pos hl]

/-- timingSafeStringEqual decides exactly string equality. -/
theorem tsse_iff (a b : String) : timingSafeStringEqual a b = true ↔ a = b := by
  constructor
  · intro h
    by_contra hne
    rw [tsse_ne hne] at h
    exact absurd h (by simp)
  · exact tsse_of_eq

/-- An attestation accepted by verifyAttestation has a valid signature
over its payload, and the payload parses to exactly the envelope
fields. -/
theorem verifyAtt_true_elim (a : TrustAttestation) (pk : List Byte)
    (h : verifyAttestation a pk = true) :
    ed25519Verify a.payload (hexToBytes a.signature.data) pk = true ∧
    ∃ parsed, parseAttPayload a.payload = some parsed ∧
      parsed.id = a.id ∧ parsed.issuerDid = a.issuerDid ∧
      parsed.subjectDid = a.subjectDid ∧ parsed.trustLevel = a.trustLevel ∧
      parsed.issuedAt = a.issuedAt := by
  simp only [verifyAttestation] at h
  simp at h
  obtain ⟨hv, hrest⟩ := h
  refine ⟨hv, ?_⟩
  cases hpp : parseAttPayload a.payload with
  | none =>
    rw [hpp] at hrest
    exact absurd hrest (by simp)
  | some parsed =>
    rw [hpp] at hrest
    simp only [Bool.and_eq_true, decide_eq_true_eq] at hrest
    obtain ⟨h1, h2, h3, h4, h5⟩ := hrest
    exact ⟨parsed, rfl,
      (tsse_iff _ _).mp h1, (tsse_iff _ _).mp h2, (tsse_iff _ _).mp h3, h4,
      (tsse_iff _ _).mp h5⟩

/-- C7: an attestation produced by createAttestation and accepted by
verifyAttestation under the issuer's public key is rejected after any
single envelope field (id, issuerDid, subjectDid, trustLevel or
issuedAt) is changed without re-signing: the payload and signature are
untouched, so the parsed payload still matches the old envelope, and
the changed field now fails its equality check. -/
theorem c7_envelope_tamper_rejected
    (issuerDid2 subjectDid2 : String) (level : ℚ) (sk : List Byte)
    (newId issuedAt2 : String) (att : TrustAttestation) (t : EnvTamper)
    (hcreate : createAttestation issuerDid2 subjectDid2 level sk newId issuedAt2 = Except.ok att)
    (hacc : verifyAttestation att (pubOf sk) = true)
    (ht : tamperChanges att t) :
    verifyAttestation (applyTamper att t) (pubOf sk) = false := by
  obtain ⟨hv, parsed, hpp, h1, h2, h3, h4, h5⟩ := verifyAtt_true_elim att (pubOf sk) hacc
  have hpay : (applyTamper att t).payload = att.payload := by cases t <;> rfl
  have hsig : (applyTamper att t).signature = att.signature := by cases t <;> rfl
  simp only [verifyAttestation, hpay, hsig, hv, hpp]
  cases t with
  | id v =>
    have hne : parsed.id ≠ v := by rw [h1]; exact fun hh => ht hh.symm
    simp [applyTamper, tsse_ne hne]
  | issuerDid v =>
    have hne : parsed.issuerDid ≠ v := by rw [h2]; exact fun hh => ht hh.symm
    simp [applyTamper, tsse_of_eq h1, tsse_ne hne]
  | subjectDid v =>
    have hne : parsed.subjectDid ≠ v := by rw [h3]; exact fun hh => ht hh.symm
    simp [applyTamper, tsse_of_eq h1, tsse_of_eq h2, tsse_ne hne]
  | trustLevel v =>
    have hne : parsed.trustLevel ≠ v := by rw [h4]; exact fun hh => ht hh.symm
    simp [applyTamper, tsse_of_eq h1, tsse_of_eq h2, tsse_of_eq h3, hne]
  | issuedAt v =>
    have hne : parsed.issuedAt ≠ v := by rw [h5]; exact fun hh => ht hh.symm
    simp [applyTamper, tsse_of_eq h1, tsse_of_eq h2, tsse_of_eq h3, h4, tsse_ne hne]

/-- C7 witness: a concrete attestation by sampleDid about itself at
level 80 is created, accepted, and rejected once issuedAt is tampered. -/
theorem c7_witness :
    createAttestation sampleDid sampleDid 80 sampleSk "u1" "t0" = Except.ok c7Att ∧
    verifyAttestation c7Att (pubOf sampleSk) = true ∧
    tamperChanges c7Att (EnvTamper.issuedAt "t9") ∧
    verifyAttestation (applyTamper c7Att (EnvTamper.issuedAt "t9")) (pubOf sampleSk) = false :=
  ⟨by rfl, by set_option maxRecDepth 10000 in decide,
   show ("t9" : String) ≠ c7Att.issuedAt by decide,
   c7_envelope_tamper_rejected sampleDid sampleDid 80 sampleSk "u1" "t0" c7Att
     (EnvTamper.issuedAt "t9") (by rfl)
     (by set_option maxRecDepth 10000 in decide)
     (show ("t9" : String) ≠ c7Att.issuedAt by decide)⟩

/-! ## Duplicate trust edges (claim C2) -/

/-- A successful plain insert requires the directed pair to be absent
and appends exactly the new row. -/
theorem dbInsertTrustEdge_ok (db : Db) (row : TrustEdgeRow) (db2 : Db)
    (h : dbInsertTrustEdge db row = Except.ok db2) :
    db.trustEdges.any
      (fun e => e.sourceDid == row.sourceDid && e.targetDid == row.targetDid) = false ∧
    db2.trustEdges = db.trustEdges ++ [row] := by
  unfold dbInsertTrustEdge at h
  cases ha : db.trustEdges.any
      (fun e => e.sourceDid == row.sourceDid && e.targetDid == row.targetDid) with
  | true => rw [ha] at h; simp at h
  | false =>
    rw [ha] at h
    simp at h
    exact ⟨rfl, by rw [← h]⟩

/-- ensureIdentity never touches the trust_edges table. -/
theorem ensureIdentity_ok_edges (st : TrustServiceState)
    (resolve : String → Option (List Byte)) (now : ℤ) (did : String)
    (st2 : TrustServiceState) (h : ensureIdentity st resolve now did = Except.ok st2) :
    st2.db.trustEdges = st.db.trustEdges := by
  simp only [ensureIdentity] at h
  cases hc : identityCacheFresh st.identityCache now did with
  | true =>
    simp only [hc, if_true] at h
    simp at h
    rw [← h]
  | false =>
    simp only [hc] at h
    simp only [Bool.false_eq_true, if_false] at h
    cases hf : st.db.identities.find? (fun r => r.did == did) with
    | some row =>
      simp only [hf] at h
      simp at h
      rw [← h]
    | none =>
      simp only [hf] at h
      by_cases ho : now < st.openUntil
      · rw [if_pos ho] at h; exact absurd h (by simp)
      · rw [if_neg ho] at h
        cases hr : resolve did with
        | none => simp only [hr] at h; exact absurd h (by simp)
        | some pk =>
          simp only [hr] at h
          simp at h
          rw [← h]

/-- A successful createTrust call certifies that the directed pair was
absent and appends exactly one row for it. -/
theorem createTrust_ok_shape (st : TrustServiceState)
    (resolve : String → Option (List Byte)) (now : ℤ) (newEdgeId : String)
    (req : CreateTrustRequest) (eid : String) (st1 : TrustServiceState)
    (h : createTrust st resolve now newEdgeId req = Except.ok (eid, st1)) :
    st.db.trustEdges.any
      (fun e => e.sourceDid == req.issuerDid && e.targetDid == req.subjectDid) = false ∧
    st1.db.trustEdges = st.db.trustEdges ++
      [⟨newEdgeId, req.issuerDid, req.subjectDid, req.trustLevel,
        hexToBytes req.signature.data, req.expiresAt⟩] := by
  simp only [createTrust] at h
  by_cases hv1 : req.trustLevel.den ≠ 1 ∨ req.trustLevel < MIN_TRUST_LEVEL ∨
      MAX_TRUST_LEVEL < req.trustLevel
  · rw [if_pos hv1] at h; exact absurd h (by simp)
  rw [if_neg hv1] at h
  by_cases hv2 : req.issuerDid = ""
  · rw [if_pos hv2] at h; exact absurd h (by simp)
  rw [if_neg hv2] at h
  by_cases hv3 : req.subjectDid = ""
  · rw [if_pos hv3] at h; exact absurd h (by simp)
  rw [if_neg hv3] at h
  by_cases hv4 : req.signature = ""
  · rw [if_pos hv4] at h; exact absurd h (by simp)
  rw [if_neg hv4] at h
  by_cases hv5 : req.payload = ""
  · rw [if_pos hv5] at h; exact absurd h (by simp)
  rw [if_neg hv5] at h
  cases hE1 : ensureIdentity st resolve now req.issuerDid with
  | error e => simp only [hE1] at h; exact absurd h (by simp)
  | ok stA =>
  simp only [hE1] at h
  cases hE2 : ensureIdentity stA resolve now req.subjectDid with
  | error e => simp only [hE2] at h; exact absurd h (by simp)
  | ok stB =>
  simp only [hE2] at h
  cases hF : stB.db.identities.find? (fun r => r.did == req.issuerDid) with
  | none => simp only [hF] at h; exact absurd h (by simp)
  | some issuerIdentity =>
  simp only [hF] at h
  by_cases hpk : issuerIdentity.publicKey.length = 0
  · rw [if_pos hpk] at h; exact absurd h (by simp)
  rw [if_neg hpk] at h
  by_cases hsl : (hexToBytes req.signature.data).length ≠ 64
  · rw [if_pos hsl] at h; exact absurd h (by simp)
  rw [if_neg hsl] at h
  cases hver : ed25519Verify req.payload (hexToBytes req.signature.data)
      issuerIdentity.publicKey with
  | false => simp [hver] at h
  | true =>
  simp only [hver, Bool.not_true, Bool.false_eq_true, if_false] at h
  cases hP : parseAttPayload req.payload with
  | none => simp only [hP] at h; exact absurd h (by simp)
  | some parsedPayload =>
  simp only [hP] at h
  by_cases hm1 : parsedPayload.issuerDid ≠ req.issuerDid
  · rw [if_pos hm1] at h; exact absurd h (by simp)
  rw [if_neg hm1] at h
  by_cases hm2 : parsedPayload.subjectDid ≠ req.subjectDid
  · rw [if_pos hm2] at h; exact absurd h (by simp)
  rw [if_neg hm2] at h
  by_cases hm3 : parsedPayload.trustLevel ≠ req.trustLevel
  · rw [if_pos hm3] at h; exact absurd h (by simp)
  rw [if_neg hm3] at h
  cases hIns : dbInsertTrustEdge stB.db
      ⟨newEdgeId, req.issuerDid, req.subjectDid, req.trustLevel,
       hexToBytes req.signature.data, req.expiresAt⟩ with
  | error e => simp only [hIns] at h; exact absurd h (by simp)
  | ok db2 =>
  simp only [hIns] at h
  simp at h
  obtain ⟨hins1, hins2⟩ := dbInsertTrustEdge_ok stB.db _ db2 hIns
  have hB := ensureIdentity_ok_edges stA resolve now req.subjectDid stB hE2
  have hA := ensureIdentity_ok_edges st resolve now req.issuerDid stA hE1
  have hst1 : st1.db.trustEdges = db2.trustEdges := by rw [← h.2]
  rw [hst1, hins2, hB, hA]
  refine ⟨?_, rfl⟩
  rw [hB, hA] at hins1
  simpa using hins1

/-- C2 (amended): a successful createTrust call leaves exactly one edge
row for its directed (issuer, subject) pair, and any further createTrust
call for the same pair — any resolver, time, or edge id — cannot
succeed: the schema's UNIQUE(source_did, target_did) makes the plain
INSERT fail, there is no upsert. -/
theorem c2_duplicate_create_trust_rejected
    (st st1 : TrustServiceState) (resolve : String → Option (List Byte))
    (now : ℤ) (newEdgeId eid : String) (req : CreateTrustRequest)
    (h1 : createTrust st resolve now newEdgeId req = Except.ok (eid, st1)) :
    (st1.db.trustEdges.filter
      (fun e => e.sourceDid == req.issuerDid && e.targetDid == req.subjectDid)).length = 1 ∧
    ∀ (req2 : CreateTrustRequest), req2.issuerDid = req.issuerDid →
      req2.subjectDid = req.subjectDid →
      ∀ (resolve2 : String → Option (List Byte)) (now2 : ℤ) (newEdgeId2 : String)
        (res : String × TrustServiceState),
        createTrust st1 resolve2 now2 newEdgeId2 req2 ≠ Except.ok res := by
  obtain ⟨habs, happ⟩ := createTrust_ok_shape st resolve now newEdgeId req eid st1 h1
  constructor
  · rw [happ, List.filter_append]
    have h0 : st.db.trustEdges.filter
        (fun e => e.sourceDid == req.issuerDid && e.targetDid == req.subjectDid) = [] := by
      rw [List.filter_eq_nil_iff]
      intro a ha
      rw [List.any_eq_false] at habs
      exact habs a ha
    rw [h0]
    simp
  · intro req2 hs ht resolve2 now2 newEdgeId2 res hok
    obtain ⟨res1, res2⟩ := res
    obtain ⟨habs2, _⟩ := createTrust_ok_shape st1 resolve2 now2 newEdgeId2 req2 res1 res2 hok
    rw [List.any_eq_false] at habs2
    have hmem : (⟨newEdgeId, req.issuerDid, req.subjectDid, req.trustLevel,
        hexToBytes req.signature.data, req.expiresAt⟩ : TrustEdgeRow) ∈ st1.db.trustEdges := by
      rw [happ]
      exact List.mem_append_right _ (List.mem_singleton_self _)
    apply habs2 _ hmem
    simp [hs, ht]

/-- C2 counterexample: the sample create-trust request succeeds once
and the identical replay fails with the duplicate-key error — it is not
upserted as the claim states. -/
theorem c2_counterexample :
    createTrust sampleState noResolve 0 "e1" sampleCreateTrust = Except.ok ("e1", c2St1) ∧
    createTrust c2St1 noResolve 0 "e2" sampleCreateTrust =
      Except.error "duplicate key value violates unique constraint unique_source_target" := by
  constructor
  · set_option maxRecDepth 10000 in rfl
  · set_option maxRecDepth 10000 in rfl

/-- C2 witness: the amended statement instantiated at the sample
request. -/
theorem c2_witness :
    (c2St1.db.trustEdges.filter
      (fun e => e.sourceDid == sampleCreateTrust.issuerDid &&
        e.targetDid == sampleCreateTrust.subjectDid)).length = 1 ∧
    createTrust c2St1 noResolve 0 "e2" sampleCreateTrust ≠ Except.ok ("e2", c2St1) := by
  have h := c2_duplicate_create_trust_rejected sampleState c2St1 noResolve 0 "e1" "e1"
    sampleCreateTrust (by set_option maxRecDepth 10000 in rfl)
  exact ⟨h.1, h.2 sampleCreateTrust rfl rfl noResolve 0 "e2" ("e2", c2St1)⟩

/-! ## Scanner and codec lemmas (toward claim C3) -/

/-- A list is a prefix of itself extended. -/
theorem isPrefixOf_append_self : ∀ (l r : List Char), l.isPrefixOf (l ++ r) = true := by
  intro l r
  induction l with
  | nil => cases r <;> rfl
  | cons a as ih => simp [List.isPrefixOf, ih]

/-- splitAtChar cuts at the first occurrence of the separator. -/
theorem splitAtChar_append (c : Char) (s rest : List Char) (h : c ∉ s) :
    splitAtChar c (s ++ c :: rest) = some (s, rest) := by
  induction s with
  | nil => simp [splitAtChar]
  | cons a as ih =>
    have ha : ¬a = c := fun hh => h (by rw [hh]; exact List.mem_cons_self c as)
    simp [splitAtChar, ha, ih (fun hm => h (List.mem_cons_of_mem a hm))]

/-- takeWhile stops exactly at the first failing element. -/
theorem takeWhile_append_of_head {p : Char → Bool} (l rest : List Char)
    (hl : ∀ c ∈ l, p c = true) (hrest : ∀ r, rest.head? = some r → p r = false) :
    (l ++ rest).takeWhile p = l := by
  induction l with
  | nil =>
    cases rest with
    | nil => rfl
    | cons r t => simp [List.takeWhile_cons, hrest r rfl]
  | cons a as ih =>
    simp [List.takeWhile_cons, hl a (by simp), ih (fun c hc => hl c (by simp [hc]))]

/-- natToCharsGo computes the reference rendering when the fuel covers
the number. -/
theorem natToCharsGo_eq : ∀ (fuel n : ℕ) (acc : List Char), n ≤ fuel →
    natToCharsGo fuel n acc = natRep n ++ acc := by
  intro fuel
  induction fuel with
  | zero =>
    intro n acc h
    have h0 : n = 0 := Nat.le_zero.mp h
    subst h0
    simp [natToCharsGo, natRep]
  | succ fuel ih =>
    intro n acc h
    by_cases h10 : n < 10
    · simp [natToCharsGo, h10, natRep]
    · have hdiv : n / 10 ≤ fuel := by
        have := Nat.div_lt_self (show 0 < n by omega) (show 1 < 10 by norm_num)
        omega
      rw [show natToCharsGo (fuel + 1) n acc =
        natToCharsGo fuel (n / 10) (Char.ofNat (48 + n % 10) :: acc) by
          simp [natToCharsGo, h10]]
      rw [ih (n / 10) _ hdiv]
      conv_rhs => rw [natRep, if_neg h10]
      simp

/-- natToChars agrees with the reference rendering. -/
theorem natToChars_eq_natRep (n : ℕ) : natToChars n = natRep n := by
  unfold natToChars
  rw [natToCharsGo_eq n n [] (le_refl n)]
  simp

/-- The reference rendering is never empty. -/
theorem natRep_ne_nil (n : ℕ) : natRep n ≠ [] := by
  rw [natRep]
  split <;> simp

/-- Decimal digit characters are digits. -/
theorem digitChar_isDigit : ∀ d : Fin 10, (Char.ofNat (48 + d.val)).isDigit = true := by decide

/-- Value of a decimal digit character. -/
theorem digitChar_toNat : ∀ d : Fin 10, (Char.ofNat (48 + d.val)).toNat - 48 = d.val := by decide

/-- Every character of the reference rendering is a digit. -/
theorem natRep_all_digits (n : ℕ) : ∀ c ∈ natRep n, c.isDigit = true := by
  induction n using Nat.strong_induction_on with
  | _ n ih =>
    by_cases h10 : n < 10
    · rw [natRep, if_pos h10]
      intro c hc
      simp at hc
      rw [hc]
      exact digitChar_isDigit ⟨n, h10⟩
    · rw [natRep, if_neg h10]
      intro c hc
      rw [List.mem_append] at hc
      cases hc with
      | inl hmem =>
        have hdiv : n / 10 < n :=
          Nat.div_lt_self (show 0 < n by omega) (show 1 < 10 by norm_num)
        exact ih (n / 10) hdiv c hmem
      | inr hmem =>
        simp at hmem
        rw [hmem]
        exact digitChar_isDigit ⟨n % 10, Nat.mod_lt n (by norm_num)⟩

/-- Folding one more digit. -/
theorem digitsToNat_append (l : List Char) (c : Char) :
    digitsToNat (l ++ [c]) = digitsToNat l * 10 + (c.toNat - 48) := by
  unfold digitsToNat
  simp [List.foldl_append]

/-- Parsing inverts the reference rendering. -/
theorem digitsToNat_natRep (n : ℕ) : digitsToNat (natRep n) = n := by
  induction n using Nat.strong_induction_on with
  | _ n ih =>
    by_cases h10 : n < 10
    · rw [natRep, if_pos h10]
      have hv := digitChar_toNat ⟨n, h10⟩
      simp [digitsToNat]
      exact hv
    · rw [natRep, if_neg h10, digitsToNat_append]
      have hdiv : n / 10 < n :=
        Nat.div_lt_self (show 0 < n by omega) (show 1 < 10 by norm_num)
      rw [ih (n / 10) hdiv]
      have hv := digitChar_toNat ⟨n % 10, Nat.mod_lt n (by norm_num)⟩
      simp at hv
      rw [hv]
      omega

/-- Hex digits decode to their value. -/
theorem hexCharVal_hexDigitChar : ∀ x : Fin 16, hexCharVal (hexDigitChar x.val) = some x := by
  decide

/-- Buffer.from inverts Buffer.toString for the hex codec. -/
theorem hexToBytes_hexChars : ∀ bs : List Byte, hexToBytes (hexChars bs) = bs := by
  intro bs
  induction bs with
  | nil => rfl
  | cons b rest ih =>
    have hb := b.isLt
    have h1 := hexCharVal_hexDigitChar ⟨b.val / 16, by omega⟩
    have h2 := hexCharVal_hexDigitChar ⟨b.val % 16, by omega⟩
    show hexToBytes (hexDigitChar (b.val / 16) :: hexDigitChar (b.val % 16) :: hexChars rest) =
      b :: rest
    simp only [hexToBytes, h1, h2, ih]
    congr 1
    exact Fin.ext (by simp; omega)

/-- Hex digit characters are never the colon delimiter. -/
theorem hexDigitChar_ne_colon : ∀ x : Fin 16, hexDigitChar x.val ≠ ':' := by decide

/-- The hex rendering never contains the colon delimiter. -/
theorem hexChars_no_colon : ∀ bs : List Byte, ':' ∉ hexChars bs := by
  intro bs
  induction bs with
  | nil => simp [hexChars]
  | cons b rest ih =>
    have hb := b.isLt
    intro hmem
    simp [hexChars] at hmem
    rcases hmem with h | h | h
    · exact hexDigitChar_ne_colon ⟨b.val / 16, by omega⟩ h.symm
    · exact hexDigitChar_ne_colon ⟨b.val % 16, by omega⟩ h.symm
    · exact ih h

/-- The hex rendering of a non-empty byte list is non-empty. -/
theorem hexChars_ne_nil (bs : List Byte) (h : bs ≠ []) : hexChars bs ≠ [] := by
  cases bs with
  | nil => exact absurd rfl h
  | cons b rest => simp [hexChars]

/-- The model public key always has 32 bytes. -/
theorem pubOf_length (sk : List Byte) : (pubOf sk).length = 32 := by
  simp [pubOf]

/-- The model digest always has 32 bytes. -/
theorem digest32_length (s : String) : (digest32 s).length = 32 := by
  simp [digest32]

/-- Model signatures are 64 bytes. -/
theorem ed25519Sign_length (msg : String) (sk : List Byte) :
    (ed25519Sign msg sk).length = 64 := by
  simp [ed25519Sign, pubOf_length, digest32_length]

/-- The model scheme verifies its own signatures. -/
theorem ed25519_verify_sign (msg : String) (sk : List Byte) :
    ed25519Verify msg (ed25519Sign msg sk) (pubOf sk) = true := by
  simp [ed25519Verify, ed25519Sign]

/-- A failed literal match advances the digits scanner one character. -/
theorem scanLitDigits_cons_skip (lit : List Char) (c : Char) (rest : List Char)
    (h : lit.isPrefixOf (c :: rest) = false) :
    scanLitDigits lit (c :: rest) = scanLitDigits lit rest := by
  simp [scanLitDigits, h]

/-- A failed literal match advances the quoted scanner one character. -/
theorem scanLitQuoted_cons_skip (lit : List Char) (c : Char) (rest : List Char)
    (h : lit.isPrefixOf (c :: rest) = false) :
    scanLitQuoted lit (c :: rest) = scanLitQuoted lit rest := by
  simp [scanLitQuoted, h]

/-- A failed literal match advances the colon scanner one character. -/
theorem scanLitColon_cons_skip (lit : List Char) (c : Char) (rest : List Char)
    (h : lit.isPrefixOf (c :: rest) = false) :
    scanLitColon lit (c :: rest) = scanLitColon lit rest := by
  simp [scanLitColon, h]

/-- The digits scanner skips a whole region in which no suffix starts
a literal match. -/
theorem scanLitDigits_skip_region (lit pre rest : List Char)
    (h : ∀ p q, pre = p ++ q → q ≠ [] → lit.isPrefixOf (q ++ rest) = false) :
    scanLitDigits lit (pre ++ rest) = scanLitDigits lit rest := by
  induction pre with
  | nil => simp
  | cons c pre ih =>
    rw [List.cons_append, scanLitDigits_cons_skip]
    · exact ih (fun p q hpq hq => h (c :: p) q (by rw [hpq, List.cons_append]) hq)
    · have hq := h [] (c :: pre) rfl (by simp)
      simpa using hq

/-- The quoted scanner skips a whole region in which no suffix starts
a literal match. -/
theorem scanLitQuoted_skip_region (lit pre rest : List Char)
    (h : ∀ p q, pre = p ++ q → q ≠ [] → lit.isPrefixOf (q ++ rest) = false) :
    scanLitQuoted lit (pre ++ rest) = scanLitQuoted lit rest := by
  induction pre with
  | nil => simp
  | cons c pre ih =>
    rw [List.cons_append, scanLitQuoted_cons_skip]
    · exact ih (fun p q hpq hq => h (c :: p) q (by rw [hpq, List.cons_append]) hq)
    · have hq := h [] (c :: pre) rfl (by simp)
      simpa using hq

/-- No literal match can start at a character different from the
literal's head. -/
theorem prefix_false_of_head_ne (l0 : Char) (lt q rest : List Char)
    (hq : q ≠ []) (hhead : ∀ c ∈ q, c ≠ l0) :
    (l0 :: lt).isPrefixOf (q ++ rest) = false := by
  cases q with
  | nil => exact absurd rfl hq
  | cons c t =>
    have hne : (l0 == c) = false :=
      beq_eq_false_iff_ne.mpr (fun hh => hhead c (by simp) hh.symm)
    show ((l0 :: lt).isPrefixOf (c :: (t ++ rest))) = false
    simp [List.isPrefixOf, hne]

/-- A digit differs from any non-digit character. -/
theorem digit_ne (c x : Char) (h : c.isDigit = true) (hx : x.isDigit = false) : c ≠ x := by
  intro hh
  rw [hh, hx] at h
  exact absurd h (by simp)

/-- Inside the nonce region (no letter l) the alg literal cannot start,
even straddling into the closing quote. -/
theorem alg_prefix_false_in_nonce (q R : List Char) (hq : q ≠ [])
    (hl : ∀ c ∈ q, c ≠ 'l') :
    ("alg=\"".data).isPrefixOf (q ++ '"' :: R) = false := by
  cases q with
  | nil => exact absurd rfl hq
  | cons c t =>
    by_cases hca : c = 'a'
    · subst hca
      cases t with
      | nil => simp [List.isPrefixOf]
      | cons c2 t2 =>
        have h2 : ('l' == c2) = false :=
          beq_eq_false_iff_ne.mpr (fun hh => hl c2 (by simp) hh.symm)
        simp [List.isPrefixOf, h2]
    · have h1 : ('a' == c) = false := beq_eq_false_iff_ne.mpr (fun hh => hca hh.symm)
      simp [List.isPrefixOf, h1]

/-- Inside the keyid region (no equals sign) the alg literal cannot
start, even straddling into the closing quote. -/
theorem alg_prefix_false_in_keyid (q R : List Char) (hq : q ≠ [])
    (h : ∀ c ∈ q, c ≠ '=') :
    ("alg=\"".data).isPrefixOf (q ++ '"' :: R) = false := by
  match q, hq with
  | [c1], _ => simp [List.isPrefixOf]
  | [c1, c2], _ => simp [List.isPrefixOf]
  | [c1, c2, c3], _ => simp [List.isPrefixOf]
  | c1 :: c2 :: c3 :: c4 :: t, _ =>
    have h4 : ('=' == c4) = false :=
      beq_eq_false_iff_ne.mpr (fun hh => h c4 (by simp) hh.symm)
    simp [List.isPrefixOf, h4]

/-- The digits scanner captures the digit run right after its literal. -/
theorem scanLitDigits_hit (l0 : Char) (lt ds rest : List Char)
    (hds : ds ≠ []) (hdig : ∀ c ∈ ds, c.isDigit = true)
    (hrest : ∀ r, rest.head? = some r → r.isDigit = false) :
    scanLitDigits (l0 :: lt) ((l0 :: lt) ++ (ds ++ rest)) = some (digitsToNat ds) := by
  show scanLitDigits (l0 :: lt) (l0 :: (lt ++ (ds ++ rest))) = some (digitsToNat ds)
  have hpre : (l0 :: lt).isPrefixOf (l0 :: (lt ++ (ds ++ rest))) = true :=
    isPrefixOf_append_self (l0 :: lt) (ds ++ rest)
  have hdrop : (l0 :: (lt ++ (ds ++ rest))).drop (l0 :: lt).length = ds ++ rest :=
    List.drop_left (l0 :: lt) (ds ++ rest)
  simp only [scanLitDigits, hpre, if_true, hdrop,
    takeWhile_append_of_head ds rest hdig hrest]
  simp [hds]

/-- The quoted scanner captures the quote-free run right after its
literal. -/
theorem scanLitQuoted_hit (l0 : Char) (lt cap rest : List Char)
    (hcap : cap ≠ []) (hq : '"' ∉ cap) :
    scanLitQuoted (l0 :: lt) ((l0 :: lt) ++ (cap ++ '"' :: rest)) = some cap := by
  show scanLitQuoted (l0 :: lt) (l0 :: (lt ++ (cap ++ '"' :: rest))) = some cap
  have hpre : (l0 :: lt).isPrefixOf (l0 :: (lt ++ (cap ++ '"' :: rest))) = true :=
    isPrefixOf_append_self (l0 :: lt) (cap ++ '"' :: rest)
  have hdrop : (l0 :: (lt ++ (cap ++ '"' :: rest))).drop (l0 :: lt).length =
      cap ++ '"' :: rest :=
    List.drop_left (l0 :: lt) (cap ++ '"' :: rest)
  simp only [scanLitQuoted, hpre, if_true, hdrop,
    splitAtChar_append '"' cap rest hq]
  simp [hcap]

/-- The colon scanner captures the colon-free run right after its
literal. -/
theorem scanLitColon_hit (l0 : Char) (lt cap rest : List Char)
    (hcap : cap ≠ []) (hq : ':' ∉ cap) :
    scanLitColon (l0 :: lt) ((l0 :: lt) ++ (cap ++ ':' :: rest)) = some cap := by
  show scanLitColon (l0 :: lt) (l0 :: (lt ++ (cap ++ ':' :: rest))) = some cap
  have hpre : (l0 :: lt).isPrefixOf (l0 :: (lt ++ (cap ++ ':' :: rest))) = true :=
    isPrefixOf_append_self (l0 :: lt) (cap ++ ':' :: rest)
  have hdrop : (l0 :: (lt ++ (cap ++ ':' :: rest))).drop (l0 :: lt).length =
      cap ++ ':' :: rest :=
    List.drop_left (l0 :: lt) (cap ++ ':' :: rest)
  simp only [scanLitColon, hpre, if_true, hdrop,
    splitAtChar_append ':' cap rest hq]
  simp [hcap]

/-- findParen captures the first parenthesized group when it opens the
input. -/
theorem findParen_cons (cap rest : List Char) (hcap : cap ≠ []) (hpar : ')' ∉ cap) :
    findParen ('(' :: (cap ++ ')' :: rest)) = some (cap, rest) := by
  simp [findParen, splitAtChar_append ')' cap rest hpar, hcap]

/-- The created scan over the generated parameter string finds the
created digit run. -/
theorem scan_created_params (C E N K : List Char) (hC : C ≠ [])
    (hCd : ∀ c ∈ C, c.isDigit = true) :
    scanLitDigits "created=".data (paramsChars C E N K) = some (digitsToNat C) := by
  simp only [paramsChars]
  rw [scanLitDigits_cons_skip _ _ _ (by simp [List.isPrefixOf])]
  exact scanLitDigits_hit 'c' "reated=".data C _ hC hCd (fun r hr => by
    simp at hr
    rw [← hr]
    decide)

/-- The expires scan over the generated parameter string finds the
expires digit run. -/
theorem scan_expires_params (C E N K : List Char)
    (hCd : ∀ c ∈ C, c.isDigit = true) (hE : E ≠ [])
    (hEd : ∀ c ∈ E, c.isDigit = true) :
    scanLitDigits "expires=".data (paramsChars C E N K) = some (digitsToNat E) := by
  simp only [paramsChars]
  iterate 9 rw [scanLitDigits_cons_skip _ _ _ (by simp [List.isPrefixOf])]
  rw [scanLitDigits_skip_region _ C _ (fun p q hpq hq =>
    prefix_false_of_head_ne 'e' "xpires=".data q _ hq (fun c hc =>
      digit_ne c 'e' (hCd c (by rw [hpq]; exact List.mem_append_right p hc)) (by decide)))]
  iterate 1 rw [scanLitDigits_cons_skip _ _ _ (by simp [List.isPrefixOf])]
  exact scanLitDigits_hit 'e' "xpires=".data E _ hE hEd (fun r hr => by
    simp at hr
    rw [← hr]
    decide)

/-- The keyid scan over the generated parameter string finds the
quoted keyid. -/
theorem scan_keyid_params (C E N K : List Char)
    (hCd : ∀ c ∈ C, c.isDigit = true) (hEd : ∀ c ∈ E, c.isDigit = true)
    (hN : ∀ c ∈ N, c ≠ 'k') (hK : K ≠ []) (hKq : '"' ∉ K) :
    scanLitQuoted "keyid=\"".data (paramsChars C E N K) = some K := by
  simp only [paramsChars]
  iterate 9 rw [scanLitQuoted_cons_skip _ _ _ (by simp [List.isPrefixOf])]
  rw [scanLitQuoted_skip_region _ C _ (fun p q hpq hq =>
    prefix_false_of_head_ne 'k' "eyid=\"".data q _ hq (fun c hc =>
      digit_ne c 'k' (hCd c (by rw [hpq]; exact List.mem_append_right p hc)) (by decide)))]
  iterate 9 rw [scanLitQuoted_cons_skip _ _ _ (by simp [List.isPrefixOf])]
  rw [scanLitQuoted_skip_region _ E _ (fun p q hpq hq =>
    prefix_false_of_head_ne 'k' "eyid=\"".data q _ hq (fun c hc =>
      digit_ne c 'k' (hEd c (by rw [hpq]; exact List.mem_append_right p hc)) (by decide)))]
  iterate 8 rw [scanLitQuoted_cons_skip _ _ _ (by simp [List.isPrefixOf])]
  rw [scanLitQuoted_skip_region _ N _ (fun p q hpq hq =>
    prefix_false_of_head_ne 'k' "eyid=\"".data q _ hq (fun c hc =>
      hN c (by rw [hpq]; exact List.mem_append_right p hc)))]
  iterate 2 rw [scanLitQuoted_cons_skip _ _ _ (by simp [List.isPrefixOf])]
  exact scanLitQuoted_hit 'k' "eyid=\"".data K _ hK hKq

/-- The alg scan over the generated parameter string finds the quoted
algorithm name. -/
theorem scan_alg_params (C E N K : List Char)
    (hCd : ∀ c ∈ C, c.isDigit = true) (hEd : ∀ c ∈ E, c.isDigit = true)
    (hNl : ∀ c ∈ N, c ≠ 'l') (hKe : ∀ c ∈ K, c ≠ '=') :
    scanLitQuoted "alg=\"".data (paramsChars C E N K) = some "ed25519".data := by
  simp only [paramsChars]
  iterate 9 rw [scanLitQuoted_cons_skip _ _ _ (by simp [List.isPrefixOf])]
  rw [scanLitQuoted_skip_region _ C _ (fun p q hpq hq =>
    prefix_false_of_head_ne 'a' "lg=\"".data q _ hq (fun c hc =>
      digit_ne c 'a' (hCd c (by rw [hpq]; exact List.mem_append_right p hc)) (by decide)))]
  iterate 9 rw [scanLitQuoted_cons_skip _ _ _ (by simp [List.isPrefixOf])]
  rw [scanLitQuoted_skip_region _ E _ (fun p q hpq hq =>
    prefix_false_of_head_ne 'a' "lg=\"".data q _ hq (fun c hc =>
      digit_ne c 'a' (hEd c (by rw [hpq]; exact List.mem_append_right p hc)) (by decide)))]
  iterate 8 rw [scanLitQuoted_cons_skip _ _ _ (by simp [List.isPrefixOf])]
  rw [scanLitQuoted_skip_region _ N _ (fun p q hpq hq =>
    alg_prefix_false_in_nonce q _ hq (fun c hc =>
      hNl c (by rw [hpq]; exact List.mem_append_right p hc)))]
  iterate 9 rw [scanLitQuoted_cons_skip _ _ _ (by simp [List.isPrefixOf])]
  rw [scanLitQuoted_skip_region _ K _ (fun p q hpq hq =>
    alg_prefix_false_in_keyid q _ hq (fun c hc =>
      hKe c (by rw [hpq]; exact List.mem_append_right p hc)))]
  iterate 2 rw [scanLitQuoted_cons_skip _ _ _ (by simp [List.isPrefixOf])]
  exact scanLitQuoted_hit 'a' "lg=\"".data "ed25519".data [] (by simp) (by decide)

/-- String concatenation concatenates the character lists. -/
theorem str_data_append (a b : String) : (a ++ b).data = a.data ++ b.data := rfl

/-- Characters of the intercalate accumulator loop. -/
theorem interGo_data (s : String) : ∀ (l : List String) (acc : String),
    (String.intercalate.go acc s l).data =
      acc.data ++ (l.map (fun t => s.data ++ t.data)).flatten := by
  intro l
  induction l with
  | nil => intro acc; simp [String.intercalate.go]
  | cons a as ih =>
    intro acc
    rw [show String.intercalate.go acc s (a :: as) =
      String.intercalate.go (acc ++ s ++ a) s as from rfl]
    rw [ih]
    simp [str_data_append, List.append_assoc]

/-- Characters of an intercalated non-empty list. -/
theorem intercalate_data (s : String) (a : String) (l : List String) :
    (String.intercalate s (a :: l)).data =
      a.data ++ (l.map (fun t => s.data ++ t.data)).flatten := by
  rw [show String.intercalate s (a :: l) = String.intercalate.go a s l from rfl,
    interGo_data]

/-- Stripping the quotes of one quoted token. -/
theorem filter_quotes (l : List Char) (h : '"' ∉ l) :
    ('"' :: (l ++ ['"'])).filter (fun c => c != '"') = l := by
  have h1 : (('"' : Char) != '"') = false := by decide
  simp only [List.filter_cons, h1, List.filter_append]
  simp only [Bool.false_eq_true, if_false]
  rw [List.filter_eq_self.mpr (fun c hc => by
    simp
    exact fun hh => h (hh ▸ hc))]
  simp [h1]

/-- Splitting the quoted component list on whitespace recovers the
quoted tokens. -/
theorem splitOnP_quoted (cs : List String) (a : String)
    (ha : ∀ ch ∈ a.data, ch.isWhitespace = false)
    (hclean : ∀ comp ∈ cs, ∀ ch ∈ comp.data, ch.isWhitespace = false) :
    (('"' :: (a.data ++ ['"'])) ++
        (cs.map (fun t => " ".data ++ ("\"" ++ t ++ "\"").data)).flatten).splitOnP
      (fun c => c.isWhitespace) =
      ('"' :: (a.data ++ ['"'])) :: cs.map (fun t => '"' :: (t.data ++ ['"'])) := by
  induction cs generalizing a with
  | nil =>
    simp only [List.map_nil, List.flatten_nil, List.append_nil]
    exact List.splitOnP_eq_single (fun c => c.isWhitespace) ('"' :: (a.data ++ ['"']))
      (fun x hx => by
      rcases List.mem_cons.mp hx with h | h
      · rw [h]; decide
      · rcases List.mem_append.mp h with h2 | h2
        · simp [ha x h2]
        · simp at h2; rw [h2]; decide)
  | cons b rest ih =>
    have hb := hclean b (by simp)
    have hrest : ∀ comp ∈ rest, ∀ ch ∈ comp.data, ch.isWhitespace = false :=
      fun comp hc => hclean comp (by simp [hc])
    have hjoin : ((b :: rest).map (fun t => " ".data ++ ("\"" ++ t ++ "\"").data)).flatten =
        ' ' :: (('"' :: (b.data ++ ['"'])) ++
          (rest.map (fun t => " ".data ++ ("\"" ++ t ++ "\"").data)).flatten) := by
      simp [str_data_append]
    rw [hjoin]
    have htok : ∀ x ∈ ('"' :: (a.data ++ ['"'])), ¬(x.isWhitespace = true) := fun x hx => by
      rcases List.mem_cons.mp hx with h | h
      · rw [h]; decide
      · rcases List.mem_append.mp h with h2 | h2
        · simp [ha x h2]
        · simp at h2; rw [h2]; decide
    rw [List.splitOnP_first (fun c => c.isWhitespace) ('"' :: (a.data ++ ['"'])) htok ' '
      (by decide) _]
    rw [ih b hb hrest]
    simp

/-- Characters of the quoted component list. -/
theorem quotedList_data (a : String) (cs : List String) :
    (String.intercalate " " ((a :: cs).map (fun t => "\"" ++ t ++ "\""))).data =
      ('"' :: (a.data ++ ['"'])) ++
        (cs.map (fun t => " ".data ++ ("\"" ++ t ++ "\"").data)).flatten := by
  rw [List.map_cons, intercalate_data, List.map_map]
  rfl

/-- The quoted component list contains no parenthesis when no
component does. -/
theorem quotedList_no_paren (a : String) (cs : List String)
    (h : ∀ comp ∈ a :: cs, ∀ ch ∈ comp.data, ch ≠ ')') :
    ')' ∉ (String.intercalate " " ((a :: cs).map (fun t => "\"" ++ t ++ "\""))).data := by
  rw [quotedList_data]
  intro hmem
  rcases List.mem_append.mp hmem with hm | hm
  · rcases List.mem_cons.mp hm with hm2 | hm2
    · exact absurd hm2 (by decide)
    · rcases List.mem_append.mp hm2 with hm3 | hm3
      · exact h a (by simp) ')' hm3 rfl
      · simp at hm3
  · obtain ⟨l, hl, hmeml⟩ := List.mem_flatten.mp hm
    obtain ⟨t, ht, rfl⟩ := List.mem_map.mp hl
    rcases List.mem_append.mp hmeml with hm4 | hm4
    · simp at hm4
    · simp only [str_data_append] at hm4
      rcases List.mem_append.mp hm4 with hm5 | hm5
      · rcases List.mem_append.mp hm5 with hm6 | hm6
        · simp at hm6
        · exact h t (by simp [ht]) ')' hm6 rfl
      · simp at hm5

/-- The quoted component list is never empty. -/
theorem quotedList_ne_nil (a : String) (cs : List String) :
    (String.intercalate " " ((a :: cs).map (fun t => "\"" ++ t ++ "\""))).data ≠ [] := by
  rw [quotedList_data]
  simp

/-- Parsing the quoted component list recovers the components. -/
theorem parseComponentsList_quoted (a : String) (cs : List String)
    (hclean : ∀ comp ∈ a :: cs, comp.data ≠ [] ∧
      ∀ ch ∈ comp.data, ch.isWhitespace = false ∧ ch ≠ '"') :
    parseComponentsList
      (String.intercalate " " ((a :: cs).map (fun t => "\"" ++ t ++ "\""))).data = a :: cs := by
  have hq : ∀ comp ∈ a :: cs, '"' ∉ comp.data :=
    fun comp hc hmem => ((hclean comp hc).2 '"' hmem).2 rfl
  rw [quotedList_data]
  unfold parseComponentsList
  rw [splitOnP_quoted cs a (fun ch hch => ((hclean a (by simp)).2 ch hch).1)
    (fun comp hc ch hch => ((hclean comp (by simp [hc])).2 ch hch).1)]
  have hmapfilter :
      ((('"' :: (a.data ++ ['"'])) :: cs.map (fun t => '"' :: (t.data ++ ['"']))).map
        (fun t => t.filter (fun ch => ch != '"'))) = (a :: cs).map String.data := by
    simp only [List.map_cons, List.map_map]
    congr 1
    · exact filter_quotes a.data (hq a (by simp))
    · apply List.map_congr_left
      intro t ht
      exact filter_quotes t.data (hq t (by simp [ht]))
  rw [hmapfilter]
  have hfilter : ((a :: cs).map String.data).filter (fun t => !t.isEmpty) =
      (a :: cs).map String.data := by
    apply List.filter_eq_self.mpr
    intro t ht
    obtain ⟨comp, hc, rfl⟩ := List.mem_map.mp ht
    simp [(hclean comp hc).1]
  rw [hfilter, List.map_map]
  have : ((fun t => (⟨t⟩ : String)) ∘ String.data) = id := by
    funext t
    rfl
  rw [this, List.map_id]

/-- Rendering a natural cast to an integer. -/
theorem intToString_natCast (n : ℕ) : intToString (n : ℤ) = ⟨natRep n⟩ := by
  unfold intToString
  rw [if_neg (by omega)]
  congr 1
  rw [show ((n : ℤ)).toNat = n from by omega]
  exact natToChars_eq_natRep n

/-- parseSignatureInput inverts the header signRequest generates: the
label, the component list, the created and expires timestamps, the
keyid and the ed25519 algorithm are all recovered, and no nonce is
extracted. -/
theorem parseSignatureInput_generated
    (label keyid nonce : String) (a : String) (cs : List String) (c e : ℕ)
    (hlabel : '=' ∉ label.data)
    (hclean : ∀ comp ∈ a :: cs, comp.data ≠ [] ∧ ∀ ch ∈ comp.data,
      ch.isWhitespace = false ∧ ch ≠ '"' ∧ ch ≠ ')')
    (hnonce : ∀ ch ∈ nonce.data, ch ≠ 'k' ∧ ch ≠ 'l')
    (hkeyid : keyid.data ≠ []) (hkq : ∀ ch ∈ keyid.data, ch ≠ '"' ∧ ch ≠ '=') :
    parseSignatureInput
      (label ++ "=(" ++
        String.intercalate " " ((a :: cs).map (fun t => "\"" ++ t ++ "\"")) ++
        ");created=" ++ intToString (c : ℤ) ++ ";expires=" ++ intToString (e : ℤ) ++
        ";nonce=\"" ++ nonce ++ "\";keyid=\"" ++ keyid ++ "\";alg=\"" ++ ALGORITHM ++ "\"") =
      Except.ok ⟨label, ⟨a :: cs, (c : ℤ), (e : ℤ), keyid, ALGORITHM, Option.none⟩⟩ := by
  have hdata : (label ++ "=(" ++
      String.intercalate " " ((a :: cs).map (fun t => "\"" ++ t ++ "\"")) ++
      ");created=" ++ intToString (c : ℤ) ++ ";expires=" ++ intToString (e : ℤ) ++
      ";nonce=\"" ++ nonce ++ "\";keyid=\"" ++ keyid ++ "\";alg=\"" ++ ALGORITHM ++
      "\"").data =
      label.data ++ '=' :: ('(' ::
        ((String.intercalate " " ((a :: cs).map (fun t => "\"" ++ t ++ "\""))).data ++
          ')' :: paramsChars (natRep c) (natRep e) nonce.data keyid.data)) := by
    rw [intToString_natCast c, intToString_natCast e]
    simp [str_data_append, paramsChars, ALGORITHM, List.append_assoc]
  have hparen : ∀ comp ∈ a :: cs, ∀ ch ∈ comp.data, ch ≠ ')' :=
    fun comp hc ch hch => ((hclean comp hc).2 ch hch).2.2
  have hclean2 : ∀ comp ∈ a :: cs, comp.data ≠ [] ∧ ∀ ch ∈ comp.data,
      ch.isWhitespace = false ∧ ch ≠ '"' :=
    fun comp hc => ⟨(hclean comp hc).1, fun ch hch =>
      ⟨((hclean comp hc).2 ch hch).1, ((hclean comp hc).2 ch hch).2.1⟩⟩
  simp only [parseSignatureInput, hdata,
    splitAtChar_append '=' label.data _ hlabel,
    findParen_cons _ _ (quotedList_ne_nil a cs) (quotedList_no_paren a cs hparen),
    parseComponentsList_quoted a cs hclean2,
    scan_created_params (natRep c) (natRep e) nonce.data keyid.data (natRep_ne_nil c)
      (natRep_all_digits c),
    scan_expires_params (natRep c) (natRep e) nonce.data keyid.data (natRep_all_digits c)
      (natRep_ne_nil e) (natRep_all_digits e),
    scan_keyid_params (natRep c) (natRep e) nonce.data keyid.data (natRep_all_digits c)
      (natRep_all_digits e) (fun ch hch => (hnonce ch hch).1) hkeyid
      (fun hmem => (hkq '"' hmem).1 rfl),
    scan_alg_params (natRep c) (natRep e) nonce.data keyid.data (natRep_all_digits c)
      (natRep_all_digits e) (fun ch hch => (hnonce ch hch).2)
      (fun ch hch => (hkq ch hch).2),
    digitsToNat_natRep]
  rfl

/-- Setting a key makes it retrievable. -/
theorem assocGet_assocSet_self {α : Type} (m : List (String × α)) (k : String) (v : α) :
    assocGet (assocSet m k v) k = some v := by
  induction m with
  | nil => simp [assocSet, assocGet]
  | cons p rest ih =>
    obtain ⟨k0, v0⟩ := p
    cases hk : (k0 == k) with
    | true => simp [assocSet, hk, assocGet]
    | false =>
      simp only [assocSet, hk, Bool.false_eq_true, if_false]
      simp only [assocGet, List.find?] at ih ⊢
      rw [show ((k0, v0).1 == k) = false from hk]
      exact ih

/-- Setting one key leaves other lookups alone. -/
theorem assocGet_assocSet_ne {α : Type} (m : List (String × α)) (k k2 : String) (v : α)
    (h : (k2 == k) = false) :
    assocGet (assocSet m k v) k2 = assocGet m k2 := by
  induction m with
  | nil =>
    simp only [assocSet, assocGet, List.find?]
    rw [show ((k, v).1 == k2) = false from by
      simp at h ⊢
      exact fun hh => h hh.symm]
    all_goals rfl
  | cons p rest ih =>
    obtain ⟨k0, v0⟩ := p
    cases hk : (k0 == k) with
    | true =>
      have hk0 : k0 = k := by simpa using hk
      subst hk0
      simp only [assocSet, beq_self_eq_true, if_true]
      simp only [assocGet, List.find?]
      rw [show ((k0, v).1 == k2) = false from by
        simp at h ⊢
        exact fun hh => h hh.symm]
      all_goals rfl
    | false =>
      simp only [assocSet, hk, Bool.false_eq_true, if_false]
      simp only [assocGet, List.find?] at ih ⊢
      cases hp : ((k0, v0).1 == k2) with
      | true => rfl
      | false => exact ih

/-- A case-insensitive header search ignores an assocSet on a key with
a different lowercase form. -/
theorem find_lower_assocSet (m : List (String × String)) (k v n : String)
    (h : (asciiLower k == n) = false) :
    (assocSet m k v).find? (fun p => asciiLower p.1 == n) =
      m.find? (fun p => asciiLower p.1 == n) := by
  induction m with
  | nil => simp [assocSet, List.find?, h]
  | cons p rest ih =>
    obtain ⟨k0, v0⟩ := p
    cases hk : (k0 == k) with
    | true =>
      have hk0 : k0 = k := by simpa using hk
      subst hk0
      simp only [assocSet, beq_self_eq_true, if_true, List.find?]
      rw [show (asciiLower (k0, v).1 == n) = false from h]
      all_goals rfl
    | false =>
      simp only [assocSet, hk, Bool.false_eq_true, if_false, List.find?]
      cases hp : (asciiLower (k0, v0).1 == n) with
      | true => rfl
      | false => exact ih

/-- Adding a header whose lowercase name differs from the component
does not change component extraction. -/
theorem extractComponent_assocSet (request : RequestLike) (k v : String) (comp : String)
    (h : (asciiLower k == asciiLower comp) = false) :
    extractComponent { request with headers := assocSet request.headers k v } comp =
      extractComponent request comp := by
  unfold extractComponent
  cases hat : strStarts comp "@" with
  | true => simp [hat]
  | false =>
    simp only [hat, Bool.false_eq_true, if_false]
    rw [find_lower_assocSet request.headers k v (asciiLower comp) h]

/-- mapM over Except is pointwise. -/
theorem mapM_congr_except {α β : Type} (f g : α → Except String β) (l : List α)
    (h : ∀ x ∈ l, f x = g x) : l.mapM f = l.mapM g := by
  induction l with
  | nil => rfl
  | cons a t ih =>
    rw [List.mapM_cons, List.mapM_cons, h a (by simp), ih (fun x hx => h x (by simp [hx]))]

/-- Adding a header that is not among the signed components does not
change the signature base. -/
theorem createSignatureBase_assocSet (request : RequestLike) (k v : String)
    (params : SignatureParams)
    (h : ∀ comp ∈ params.components, (asciiLower k == asciiLower comp) = false) :
    createSignatureBase { request with headers := assocSet request.headers k v } params =
      createSignatureBase request params := by
  unfold createSignatureBase
  rw [mapM_congr_except _ _ params.components (fun comp hc => by
    rw [extractComponent_assocSet request k v comp (h comp hc)])]

/-- The colon scanner hit for an arbitrary non-empty literal. -/
theorem scanLitColon_hit_full (lit cap rest : List Char) (hlit : lit ≠ [])
    (hcap : cap ≠ []) (hq : ':' ∉ cap) :
    scanLitColon lit (lit ++ (cap ++ ':' :: rest)) = some cap := by
  cases lit with
  | nil => exact absurd rfl hlit
  | cons l0 lt => exact scanLitColon_hit l0 lt cap rest hcap hq

/-- A string with characters is not the empty string. -/
theorem str_ne_empty {s : String} (h : s.data ≠ []) : s ≠ "" :=
  fun hh => h (by rw [hh])

/-- The or-chain keeps a non-empty first operand. -/
theorem jsStringOr_some_ne (s : String) (b : Option String) (h : s ≠ "") :
    jsStringOr (some s) b = some s := by
  simp [jsStringOr, h]

/-- A present non-empty string is truthy. -/
theorem jsFalsy_some_ne (s : String) (h : s ≠ "") : jsFalsy (some s) = false := by
  simp [jsFalsy, h]

/-- The byte encoding of a non-empty string is non-empty. -/
theorem strBytes_ne_nil (s : String) (h : s ≠ "") : strBytes s ≠ [] := by
  intro hb
  apply h
  have hb2 : s.data.map (fun c => byteOf c.toNat) = [] := hb
  have hd := List.map_eq_nil_iff.mp hb2
  cases s with
  | mk d =>
    rw [show (String.mk d).data = d from rfl] at hd
    rw [hd]

/-- A string extended with a closing quote is non-empty. -/
theorem str_append_quote_ne (X : String) : (X ++ "\"") ≠ "" :=
  str_ne_empty (by rw [str_data_append]; simp)

/-- A string extended with a closing colon is non-empty. -/
theorem str_append_colon_ne (X : String) : (X ++ ":") ≠ "" :=
  str_ne_empty (by rw [str_data_append]; simp)

theorem roundtrip_core
    (request : RequestLike) (sk : List Byte) (voptions : VerifyOptions)
    (UH : List (String × String)) (a : String) (cs : List String)
    (label keyid nonce : String) (c e : ℕ) (vt : ℤ) (base : String)
    (hclean : ∀ comp ∈ a :: cs, comp.data ≠ [] ∧ ∀ ch ∈ comp.data,
      ch.isWhitespace = false ∧ ch ≠ '"' ∧ ch ≠ ')')
    (hsigcol : ∀ comp ∈ a :: cs, (asciiLower "Signature-Input" == asciiLower comp) = false ∧
      (asciiLower "Signature" == asciiLower comp) = false)
    (hlabel : '=' ∉ label.data)
    (hlabelLit : label.data.all regexLiteralChar = true)
    (hnonce : ∀ ch ∈ nonce.data, ch ≠ 'k' ∧ ch ≠ 'l')
    (hkeyid : keyid.data ≠ []) (hkq : ∀ ch ∈ keyid.data, ch ≠ '"' ∧ ch ≠ '=')
    (hexp : ¬((e : ℤ) + voptions.clockDriftSeconds.getD DEFAULT_CLOCK_DRIFT_SECONDS < vt))
    (hbase : createSignatureBase ⟨request.method, request.url, UH, request.body⟩
      ⟨a :: cs, (c : ℤ), (e : ℤ), keyid, ALGORITHM, some nonce⟩ = Except.ok base)
    (hcd : jsFalsy request.body = true ∨
      ∃ b, request.body = some b ∧ b ≠ "" ∧
        assocGet UH "Content-Digest" =
          some (CONTENT_DIGEST_ALGORITHM ++ "=:" ++ bufferToBase64 (sha256Model b) ++ ":")) :
    (verifyRequest
      ⟨request.method, request.url,
        assocSet (assocSet UH "Signature-Input"
            (label ++ "=(" ++
              String.intercalate " " ((a :: cs).map (fun t => "\"" ++ t ++ "\"")) ++
              ");created=" ++ intToString (c : ℤ) ++ ";expires=" ++ intToString (e : ℤ) ++
              ";nonce=\"" ++ nonce ++ "\";keyid=\"" ++ keyid ++ "\";alg=\"" ++ ALGORITHM ++
              "\""))
          "Signature" (label ++ "=:" ++ bufferToBase64 (ed25519Sign base sk) ++ ":"),
        request.body⟩
      (pubOf sk) voptions vt).1.valid = true := by
  have hg1 : assocGet
      (assocSet (assocSet UH "Signature-Input"
          (label ++ "=(" ++
            String.intercalate " " ((a :: cs).map (fun t => "\"" ++ t ++ "\"")) ++
            ");created=" ++ intToString (c : ℤ) ++ ";expires=" ++ intToString (e : ℤ) ++
            ";nonce=\"" ++ nonce ++ "\";keyid=\"" ++ keyid ++ "\";alg=\"" ++ ALGORITHM ++
            "\""))
        "Signature" (label ++ "=:" ++ bufferToBase64 (ed25519Sign base sk) ++ ":"))
      "Signature-Input" = some
        (label ++ "=(" ++
          String.intercalate " " ((a :: cs).map (fun t => "\"" ++ t ++ "\"")) ++
          ");created=" ++ intToString (c : ℤ) ++ ";expires=" ++ intToString (e : ℤ) ++
          ";nonce=\"" ++ nonce ++ "\";keyid=\"" ++ keyid ++ "\";alg=\"" ++ ALGORITHM ++
          "\"") := by
    rw [assocGet_assocSet_ne _ _ _ _ (by decide), assocGet_assocSet_self]
  have hg2 : assocGet
      (assocSet (assocSet UH "Signature-Input"
          (label ++ "=(" ++
            String.intercalate " " ((a :: cs).map (fun t => "\"" ++ t ++ "\"")) ++
            ");created=" ++ intToString (c : ℤ) ++ ";expires=" ++ intToString (e : ℤ) ++
            ";nonce=\"" ++ nonce ++ "\";keyid=\"" ++ keyid ++ "\";alg=\"" ++ ALGORITHM ++
            "\""))
        "Signature" (label ++ "=:" ++ bufferToBase64 (ed25519Sign base sk) ++ ":"))
      "Signature" = some (label ++ "=:" ++ bufferToBase64 (ed25519Sign base sk) ++ ":") :=
    assocGet_assocSet_self _ _ _
  have hne_siv := str_append_quote_ne
    (label ++ "=(" ++
      String.intercalate " " ((a :: cs).map (fun t => "\"" ++ t ++ "\"")) ++
      ");created=" ++ intToString (c : ℤ) ++ ";expires=" ++ intToString (e : ℤ) ++
      ";nonce=\"" ++ nonce ++ "\";keyid=\"" ++ keyid ++ "\";alg=\"" ++ ALGORITHM)
  have hne_sgv := str_append_colon_ne
    (label ++ "=:" ++ bufferToBase64 (ed25519Sign base sk))
  simp only [verifyRequest, hg1, hg2,
    jsStringOr_some_ne _ _ hne_siv, jsStringOr_some_ne _ _ hne_sgv,
    jsFalsy_some_ne _ hne_siv, jsFalsy_some_ne _ hne_sgv, Option.getD_some,
    Bool.or_self, Bool.not_false, Bool.false_eq_true, if_false, if_true,
    pubOf_length, ED25519_PUBLIC_KEY_LENGTH, ne_eq, not_true, eq_self_iff_true,
    parseSignatureInput_generated label keyid nonce a cs c e hlabel hclean hnonce hkeyid hkq]
  rw [if_neg hexp]
  have hsgn_ne : ed25519Sign base sk ≠ [] := by
    intro h0
    have hl := ed25519Sign_length base sk
    rw [h0] at hl
    simp at hl
  have hscan0 : scanLitColon (label ++ "=:").data
      (label ++ "=:" ++ bufferToBase64 (ed25519Sign base sk) ++ ":").data =
      some (bufferToBase64 (ed25519Sign base sk)).data := by
    have hdata2 : (label ++ "=:" ++ bufferToBase64 (ed25519Sign base sk) ++ ":").data =
        (label ++ "=:").data ++ ((bufferToBase64 (ed25519Sign base sk)).data ++ ':' :: []) := by
      simp [str_data_append, List.append_assoc]
    rw [hdata2]
    exact scanLitColon_hit_full _ _ _ (by rw [str_data_append]; simp)
      (hexChars_ne_nil _ hsgn_ne) (hexChars_no_colon _)
  have hscan : labelSignatureScan label
      (label ++ "=:" ++ bufferToBase64 (ed25519Sign base sk) ++ ":").data =
      some (bufferToBase64 (ed25519Sign base sk)).data := by
    simp only [labelSignatureScan, hlabelLit, if_true]
    exact hscan0
  have hsig : bufferFromBase64 ⟨(bufferToBase64 (ed25519Sign base sk)).data⟩ =
      ed25519Sign base sk := hexToBytes_hexChars _
  have hnonce_irrel : createSignatureBase
      ⟨request.method, request.url, UH, request.body⟩
      ⟨a :: cs, (c : ℤ), (e : ℤ), keyid, ALGORITHM, Option.none⟩ =
      createSignatureBase ⟨request.method, request.url, UH, request.body⟩
      ⟨a :: cs, (c : ℤ), (e : ℤ), keyid, ALGORITHM, some nonce⟩ := rfl
  have hbase2 : createSignatureBase
      ⟨request.method, request.url,
        assocSet (assocSet UH "Signature-Input"
            (label ++ "=(" ++
              String.intercalate " " ((a :: cs).map (fun t => "\"" ++ t ++ "\"")) ++
              ");created=" ++ intToString (c : ℤ) ++ ";expires=" ++ intToString (e : ℤ) ++
              ";nonce=\"" ++ nonce ++ "\";keyid=\"" ++ keyid ++ "\";alg=\"" ++ ALGORITHM ++
              "\""))
          "Signature" (label ++ "=:" ++ bufferToBase64 (ed25519Sign base sk) ++ ":"),
        request.body⟩
      ⟨a :: cs, (c : ℤ), (e : ℤ), keyid, ALGORITHM, Option.none⟩ = Except.ok base := by
    have step1 := createSignatureBase_assocSet
      ⟨request.method, request.url,
        assocSet UH "Signature-Input"
          (label ++ "=(" ++
            String.intercalate " " ((a :: cs).map (fun t => "\"" ++ t ++ "\"")) ++
            ");created=" ++ intToString (c : ℤ) ++ ";expires=" ++ intToString (e : ℤ) ++
            ";nonce=\"" ++ nonce ++ "\";keyid=\"" ++ keyid ++ "\";alg=\"" ++ ALGORITHM ++
            "\""),
        request.body⟩
      "Signature" (label ++ "=:" ++ bufferToBase64 (ed25519Sign base sk) ++ ":")
      ⟨a :: cs, (c : ℤ), (e : ℤ), keyid, ALGORITHM, Option.none⟩
      (fun comp hc => (hsigcol comp hc).2)
    have step2 := createSignatureBase_assocSet
      ⟨request.method, request.url, UH, request.body⟩
      "Signature-Input"
      (label ++ "=(" ++
        String.intercalate " " ((a :: cs).map (fun t => "\"" ++ t ++ "\"")) ++
        ");created=" ++ intToString (c : ℤ) ++ ";expires=" ++ intToString (e : ℤ) ++
        ";nonce=\"" ++ nonce ++ "\";keyid=\"" ++ keyid ++ "\";alg=\"" ++ ALGORITHM ++
        "\"")
      ⟨a :: cs, (c : ℤ), (e : ℤ), keyid, ALGORITHM, Option.none⟩
      (fun comp hc => (hsigcol comp hc).1)
    exact step1.trans (step2.trans (hnonce_irrel.trans hbase))
  simp only [hscan, hsig, hbase2, ed25519_verify_sign, Bool.not_true, Bool.false_eq_true,
    if_false]
  have hcd1 : assocGet
      (assocSet (assocSet UH "Signature-Input"
          (label ++ "=(" ++
            String.intercalate " " ((a :: cs).map (fun t => "\"" ++ t ++ "\"")) ++
            ");created=" ++ intToString (c : ℤ) ++ ";expires=" ++ intToString (e : ℤ) ++
            ";nonce=\"" ++ nonce ++ "\";keyid=\"" ++ keyid ++ "\";alg=\"" ++ ALGORITHM ++
            "\""))
        "Signature" (label ++ "=:" ++ bufferToBase64 (ed25519Sign base sk) ++ ":"))
      "Content-Digest" = assocGet UH "Content-Digest" := by
    rw [assocGet_assocSet_ne _ _ _ _ (by decide), assocGet_assocSet_ne _ _ _ _ (by decide)]
  rcases hcd with hfal | ⟨b, hb, hbne, hcdg⟩
  · simp only [hfal, Bool.not_true, Bool.and_false, Bool.false_eq_true, if_false]
    cases voptions.nonceStore <;> rfl
  · have hdval_ne : (CONTENT_DIGEST_ALGORITHM ++ "=:" ++ bufferToBase64 (sha256Model b) ++
        ":") ≠ "" := str_append_colon_ne _
    have hscan2 : scanLitColon (CONTENT_DIGEST_ALGORITHM ++ "=:").data
        (CONTENT_DIGEST_ALGORITHM ++ "=:" ++ bufferToBase64 (sha256Model b) ++ ":").data =
        some (bufferToBase64 (sha256Model b)).data := by
      have hdata3 : (CONTENT_DIGEST_ALGORITHM ++ "=:" ++ bufferToBase64 (sha256Model b) ++
          ":").data = (CONTENT_DIGEST_ALGORITHM ++ "=:").data ++
          ((bufferToBase64 (sha256Model b)).data ++ ':' :: []) := by
        simp [str_data_append, List.append_assoc]
      rw [hdata3]
      exact scanLitColon_hit_full _ _ _ (by decide)
        (hexChars_ne_nil _ (strBytes_ne_nil b hbne)) (hexChars_no_colon _)
    have heta : (⟨(bufferToBase64 (sha256Model b)).data⟩ : String) =
        bufferToBase64 (sha256Model b) := rfl
    simp only [hcd1, hcdg, hb, jsStringOr_some_ne _ _ hdval_ne, jsFalsy_some_ne _ hdval_ne,
      jsFalsy_some_ne _ hbne, Option.getD_some, Bool.not_false, Bool.and_self, if_true,
      hscan2, heta, ne_eq, eq_self_iff_true, not_true, if_false]
    cases voptions.nonceStore <;> rfl

/-- C3 (amended): verifying immediately after signing succeeds, for
requests and options whose label is free of the equals sign, whose
component names are clean tokens distinct from the signature headers,
whose keyid avoids the quote and equals characters and whose nonce
avoids the letters k and l (UUID nonces qualify), within the expiry
window. -/
theorem c3_sign_verify_roundtrip
    (request : RequestLike) (sk : List Byte) (options : SignOptions)
    (voptions : VerifyOptions) (now : ℤ) (nonce : String) (signed : RequestLike)
    (hsign : signRequest request sk options now nonce = Except.ok signed)
    (hlabel : '=' ∉ (options.label.getD "sig1").data)
    (hlabelLit : (options.label.getD "sig1").data.all regexLiteralChar = true)
    (hcs : ∃ a cs, options.components.getD
      ["@method", "@target-uri", "@authority", "content-type"] = a :: cs)
    (hclean : ∀ comp ∈ options.components.getD
        ["@method", "@target-uri", "@authority", "content-type"],
      comp.data ≠ [] ∧ ∀ ch ∈ comp.data, ch.isWhitespace = false ∧ ch ≠ '"' ∧ ch ≠ ')')
    (hsigcol : ∀ comp ∈ options.components.getD
        ["@method", "@target-uri", "@authority", "content-type"],
      (asciiLower "Signature-Input" == asciiLower comp) = false ∧
      (asciiLower "Signature" == asciiLower comp) = false)
    (hnonce : ∀ ch ∈ nonce.data, ch ≠ 'k' ∧ ch ≠ 'l')
    (hkeyid : (options.keyid.getD "unknown").data ≠ [])
    (hkq : ∀ ch ∈ (options.keyid.getD "unknown").data, ch ≠ '"' ∧ ch ≠ '=')
    (hnow : 0 ≤ now)
    (hes : 0 ≤ options.expirySeconds.getD DEFAULT_SIGNATURE_EXPIRY_SECONDS)
    (hdrift : 0 ≤ voptions.clockDriftSeconds.getD DEFAULT_CLOCK_DRIFT_SECONDS) :
    (verifyRequest signed (pubOf sk) voptions now).1.valid = true := by
  obtain ⟨a, cs, hcsEq⟩ := hcs
  have hcreated_eq : intToString now = intToString ((now.toNat : ℕ) : ℤ) := by
    rw [Int.toNat_of_nonneg hnow]
  have hsum : 0 ≤ now + options.expirySeconds.getD DEFAULT_SIGNATURE_EXPIRY_SECONDS := by
    omega
  have hexpires_eq : intToString
      (now + options.expirySeconds.getD DEFAULT_SIGNATURE_EXPIRY_SECONDS) =
      intToString
        (((now + options.expirySeconds.getD DEFAULT_SIGNATURE_EXPIRY_SECONDS).toNat : ℕ) :
          ℤ) := by
    rw [Int.toNat_of_nonneg hsum]
  have hexpArg : ¬(((now + options.expirySeconds.getD
      DEFAULT_SIGNATURE_EXPIRY_SECONDS).toNat : ℤ) +
      voptions.clockDriftSeconds.getD DEFAULT_CLOCK_DRIFT_SECONDS < now) := by
    rw [Int.toNat_of_nonneg hsum]
    omega
  simp only [signRequest, hcsEq] at hsign
  cases hb : request.body with
  | none =>
    simp only [hb, Bool.false_eq_true, if_false] at hsign
    split at hsign
    · exact absurd hsign (by simp)
    · rename_i signatureBase hcb
      simp only [Except.ok.injEq] at hsign
      subst hsign
      rw [hcreated_eq, hexpires_eq]
      exact roundtrip_core ⟨request.method, request.url, request.headers, Option.none⟩ sk
        voptions request.headers a cs (options.label.getD "sig1")
        (options.keyid.getD "unknown") nonce now.toNat
        (now + options.expirySeconds.getD DEFAULT_SIGNATURE_EXPIRY_SECONDS).toNat now
        signatureBase (hcsEq ▸ hclean) (hcsEq ▸ hsigcol) hlabel hlabelLit hnonce hkeyid hkq hexpArg
        (by rw [Int.toNat_of_nonneg hnow, Int.toNat_of_nonneg hsum]; exact hcb)
        (Or.inl rfl)
  | some b =>
    by_cases hbe : b = ""
    · subst hbe
      simp only [hb, (show (!decide (("" : String) = "")) = false from by decide),
        Bool.false_eq_true, if_false] at hsign
      split at hsign
      · exact absurd hsign (by simp)
      · rename_i signatureBase hcb
        simp only [Except.ok.injEq] at hsign
        subst hsign
        rw [hcreated_eq, hexpires_eq]
        exact roundtrip_core ⟨request.method, request.url, request.headers, some ""⟩ sk
          voptions request.headers a cs (options.label.getD "sig1")
          (options.keyid.getD "unknown") nonce now.toNat
          (now + options.expirySeconds.getD DEFAULT_SIGNATURE_EXPIRY_SECONDS).toNat now
          signatureBase (hcsEq ▸ hclean) (hcsEq ▸ hsigcol) hlabel hlabelLit hnonce hkeyid hkq hexpArg
          (by rw [Int.toNat_of_nonneg hnow, Int.toNat_of_nonneg hsum]; exact hcb)
          (Or.inl rfl)
    · have hbt : (!decide (b = "")) = true := by simp [hbe]
      simp only [hb, hbt, if_true, Option.getD_some] at hsign
      cases hcc : (a :: cs).contains "content-digest" with
      | true =>
        simp only [hcc, if_true] at hsign
        split at hsign
        · exact absurd hsign (by simp)
        · rename_i signatureBase hcb
          simp only [Except.ok.injEq] at hsign
          subst hsign
          rw [hcreated_eq, hexpires_eq]
          exact roundtrip_core ⟨request.method, request.url, request.headers, some b⟩ sk
            voptions
            (assocSet request.headers "Content-Digest"
              (CONTENT_DIGEST_ALGORITHM ++ "=:" ++ bufferToBase64 (sha256Model b) ++ ":"))
            a cs (options.label.getD "sig1") (options.keyid.getD "unknown") nonce now.toNat
            (now + options.expirySeconds.getD DEFAULT_SIGNATURE_EXPIRY_SECONDS).toNat now
            signatureBase (hcsEq ▸ hclean) (hcsEq ▸ hsigcol) hlabel hlabelLit hnonce hkeyid hkq hexpArg
            (by rw [Int.toNat_of_nonneg hnow, Int.toNat_of_nonneg hsum]; exact hcb)
            (Or.inr ⟨b, rfl, hbe, assocGet_assocSet_self _ _ _⟩)
      | false =>
        simp only [hcc, Bool.false_eq_true, if_false] at hsign
        have hclean2 : ∀ comp ∈ a :: (cs ++ ["content-digest"]), comp.data ≠ [] ∧
            ∀ ch ∈ comp.data, ch.isWhitespace = false ∧ ch ≠ '"' ∧ ch ≠ ')' := by
          intro comp hc
          rcases List.mem_cons.mp hc with h1 | h1
          · exact (hcsEq ▸ hclean) comp (by rw [h1]; exact List.mem_cons_self _ _)
          · rcases List.mem_append.mp h1 with h2 | h2
            · exact (hcsEq ▸ hclean) comp (List.mem_cons_of_mem a h2)
            · simp at h2
              rw [h2]
              refine ⟨by decide, ?_⟩
              decide
        have hsigcol2 : ∀ comp ∈ a :: (cs ++ ["content-digest"]),
            (asciiLower "Signature-Input" == asciiLower comp) = false ∧
            (asciiLower "Signature" == asciiLower comp) = false := by
          intro comp hc
          rcases List.mem_cons.mp hc with h1 | h1
          · exact (hcsEq ▸ hsigcol) comp (by rw [h1]; exact List.mem_cons_self _ _)
          · rcases List.mem_append.mp h1 with h2 | h2
            · exact (hcsEq ▸ hsigcol) comp (List.mem_cons_of_mem a h2)
            · simp at h2
              rw [h2]
              exact ⟨by decide, by decide⟩
        split at hsign
        · exact absurd hsign (by simp)
        · rename_i signatureBase hcb
          simp only [Except.ok.injEq] at hsign
          subst hsign
          rw [hcreated_eq, hexpires_eq]
          exact roundtrip_core ⟨request.method, request.url, request.headers, some b⟩ sk
            voptions
            (assocSet request.headers "Content-Digest"
              (CONTENT_DIGEST_ALGORITHM ++ "=:" ++ bufferToBase64 (sha256Model b) ++ ":"))
            a (cs ++ ["content-digest"]) (options.label.getD "sig1")
            (options.keyid.getD "unknown") nonce now.toNat
            (now + options.expirySeconds.getD DEFAULT_SIGNATURE_EXPIRY_SECONDS).toNat now
            signatureBase hclean2 hsigcol2 hlabel hlabelLit hnonce hkeyid hkq hexpArg
            (by rw [Int.toNat_of_nonneg hnow, Int.toNat_of_nonneg hsum]; exact hcb)
            (Or.inr ⟨b, rfl, hbe, assocGet_assocSet_self _ _ _⟩)

/-- C3 counterexample: with the label a=b — accepted by signRequest —
the verifier cannot re-locate the signature, because parseSignatureInput
splits the label at the FIRST equals sign; the round trip fails with an
Invalid Signature header format error instead of valid. -/
theorem c3_counterexample :
    (signRequest sampleRequest sampleSk equalsLabelOptions 100 "abc-123").isOk = true ∧
    (verifyRequest c3EqSigned (pubOf sampleSk) VerifyOptions.none 100).1 =
      ⟨false, some "unknown", some "Invalid Signature header format"⟩ := by
  constructor
  · set_option maxRecDepth 10000 in decide
  · set_option maxRecDepth 10000 in decide

/-- C3 witness: the default sign options round-trip on the sample
request at time 100. -/
theorem c3_witness :
    signRequest sampleRequest sampleSk SignOptions.none 100 "abc-123" =
      Except.ok c1Signed ∧
    (verifyRequest c1Signed (pubOf sampleSk) VerifyOptions.none 100).1.valid = true :=
  ⟨by set_option maxRecDepth 10000 in rfl,
   c3_sign_verify_roundtrip sampleRequest sampleSk SignOptions.none VerifyOptions.none 100
     "abc-123" c1Signed (by set_option maxRecDepth 10000 in rfl) (by decide) (by decide)
     ⟨"@method", ["@target-uri", "@authority", "content-type"], rfl⟩ (by decide) (by decide)
     (by decide) (by decide) (by decide) (by decide) (by decide) (by decide)⟩
